import Mathlib

/-!
Verification development for the `zmem` hybrid memory engine.

The definitions below are a shallow embedding of the engine's source:

* lexical search (`src/search/lexical.ts`): `tokenizeForFts`, `buildMatchQuery`,
  `executeSearch`, `searchArchivedFallback`, `searchLexical`;
* vector search (`src/search/vector.ts`): `buildZvecFilter`, `batchLookupMemories`,
  `extractSnippet`, `searchVector`;
* fusion (`src/search/fusion.ts`): `rrfFusion`;
* the recall pipeline (`src/search/index.ts`, `src/core/recall.ts`):
  `tokenizeForArchivedLookup`, `searchArchivedByKeyword`, `queryMemories`, `recall`;
* the save protocol (`src/core/save.ts`): `prepareChunkEmbeddings`, `save`;
* the chunker (`src/ingest/chunker.ts`): `findChunkEnd`, `chunkLoop`, `chunkDocument`;
* the metadata store with its FTS triggers (`src/db/migrate.ts`): `sqlInsertItem`,
  `sqlUpdateItems`, `sqlDeleteItem`;
* the ingestion batch storing phase (`src/ingest/orchestrator.ts`): `ingestBatch`.

External collaborators (the SQLite FTS5 match engine, the zvec vector index, the
embedding provider, the gpt tokenizer, and the regex pre-scans of the chunker) are
modelled as oracle parameters bundled in the `Oracles` structure; every claim that
quantifies over behaviours quantifies over all oracles.  JavaScript numbers are
modelled as exact rationals, strings as Lean strings manipulated through explicit
character-list functions (JS `toLowerCase`/`trim`/`slice` act per UTF-16 unit; the
model acts per character).
-/

/-- Lifecycle status of a memory item (`status` column). -/
inductive MemoryStatus where
  | pending
  | active
  | archived
  | deleted
deriving DecidableEq

/-- Scope tag of a memory item (`scope` column). -/
inductive MemoryScope where
  | global
  | workspace
  | user
deriving DecidableEq

/-- Memory item type (`type` column). -/
inductive MemoryType where
  | fact
  | decision
  | preference
  | event
  | goal
  | todo
deriving DecidableEq

/-- Error codes of `CoreError` (`src/core/types.ts`). -/
inductive ErrCode where
  | validation
  | notFound
  | conflict
  | embedding
  | database
deriving DecidableEq

/-- Source tag carried by a search hit. -/
inductive HitSource where
  | lex
  | vec
  | hybrid
deriving DecidableEq

/-- Whitespace as JS `trim` and `\s` treat it (ASCII fragment). -/
def isJsSpace (c : Char) : Bool :=
  c = ' ' || c = '\t' || c = '\n' || c = '\r'

/-- Drop leading JS whitespace from a character list. -/
def trimLeftChars : List Char → List Char
  | [] => []
  | c :: cs => if isJsSpace c then trimLeftChars cs else c :: cs

/-- JS `String.prototype.trim` on a character list. -/
def trimChars (l : List Char) : List Char :=
  (trimLeftChars (trimLeftChars l).reverse).reverse

/-- JS `s.trim()`. -/
def trimStr (s : String) : String :=
  String.mk (trimChars s.toList)

/-- JS `s.toLowerCase()` (ASCII fragment of the Unicode mapping). -/
def lowerStr (s : String) : String :=
  String.mk (s.toList.map Char.toLower)

/-- JS `s.slice(a, b)` for `0 ≤ a ≤ b` (clamped at the ends). -/
def sliceStr (s : String) (a b : Nat) : String :=
  String.mk ((s.toList.drop a).take (b - a))

/-- Whether `pat` is a leading segment of `l`. -/
def listIsPre : List Char → List Char → Bool
  | [], _ => true
  | _ :: _, [] => false
  | a :: as, b :: bs => a = b && listIsPre as bs

/-- Whether `pat` occurs contiguously inside `l`. -/
def listInfix (pat l : List Char) : Bool :=
  match l with
  | [] => listIsPre pat []
  | _ :: rest => listIsPre pat l || listInfix pat rest

/-- SQL `s LIKE '%tok%'` (no wildcard characters inside `tok`). -/
def likeContains (tok s : String) : Bool :=
  listInfix tok.toList s.toList

/-- Byte-wise (BINARY collation) strict order on character lists. -/
def charsLt : List Char → List Char → Bool
  | [], [] => false
  | [], _ :: _ => true
  | _ :: _, [] => false
  | a :: as, b :: bs =>
    if a.toNat < b.toNat then true
    else if b.toNat < a.toNat then false
    else charsLt as bs

/-- BINARY-collation strict order on strings, as SQLite `ORDER BY` uses. -/
def strLtB (a b : String) : Bool :=
  charsLt a.toList b.toList

/-- Insert `x` into `ys` in front of the first element that does not strictly
precede it; used to model JS stable `Array.prototype.sort`. -/
def insSorted (prec : α → α → Bool) (x : α) : List α → List α
  | [] => [x]
  | y :: ys => if prec y x then y :: insSorted prec x ys else x :: y :: ys

/-- Stable insertion sort by the strict-precedence test `prec`. -/
def isortBy (prec : α → α → Bool) : List α → List α
  | [] => []
  | x :: xs => insSorted prec x (isortBy prec xs)

/-- One step of the JS `Map` merge used when deduplicating hits: if the key is
already present, keep its position and keep the better value; otherwise append. -/
def upsertHit (better : α → α → Bool) (key : α → String) : List α → α → List α
  | [], h => [h]
  | x :: xs, h =>
    if key x = key h then (if better h x then h else x) :: xs
    else x :: upsertHit better key xs h

/-- Dedupe a hit list by key, keeping first-insertion order and the better value
per key (the `new Map()` loops of `searchLexical` and `queryMemories`). -/
def dedupeBy (better : α → α → Bool) (key : α → String) (l : List α) : List α :=
  l.foldl (upsertHit better key) []

theorem insSorted_perm (prec : α → α → Bool) (x : α) (l : List α) :
    (insSorted prec x l).Perm (x :: l) := by
  induction l with
  | nil => simp [insSorted]
  | cons y ys ih =>
    simp only [insSorted]
    by_cases h : prec y x = true
    · simp only [h, if_pos rfl]
      exact ((ih.cons y).trans (List.Perm.swap x y ys))
    · simp [h]

theorem isortBy_perm (prec : α → α → Bool) (l : List α) :
    (isortBy prec l).Perm l := by
  induction l with
  | nil => simp [isortBy]
  | cons x xs ih =>
    exact (insSorted_perm prec x (isortBy prec xs)).trans (ih.cons x)

theorem mem_isortBy {prec : α → α → Bool} {l : List α} {x : α} :
    x ∈ isortBy prec l ↔ x ∈ l :=
  (isortBy_perm prec l).mem_iff

theorem mem_upsertHit {better : α → α → Bool} {key : α → String}
    {acc : List α} {h x : α} (hx : x ∈ upsertHit better key acc h) :
    x ∈ acc ∨ x = h := by
  induction acc with
  | nil =>
    simp only [upsertHit, List.mem_singleton] at hx
    exact Or.inr hx
  | cons y ys ih =>
    simp only [upsertHit] at hx
    split at hx
    · split at hx
      · rcases List.mem_cons.mp hx with rfl | hx
        · exact Or.inr rfl
        · exact Or.inl (List.mem_cons_of_mem _ hx)
      · rcases List.mem_cons.mp hx with rfl | hx
        · exact Or.inl (List.mem_cons_self _ _)
        · exact Or.inl (List.mem_cons_of_mem _ hx)
    · rcases List.mem_cons.mp hx with rfl | hx
      · exact Or.inl (List.mem_cons_self _ _)
      · rcases ih hx with h' | h'
        · exact Or.inl (List.mem_cons_of_mem _ h')
        · exact Or.inr h'

theorem mem_foldl_upsertHit {better : α → α → Bool} {key : α → String}
    (l : List α) :
    ∀ acc x, x ∈ l.foldl (upsertHit better key) acc → x ∈ acc ∨ x ∈ l := by
  induction l with
  | nil => intro acc x hx; exact Or.inl hx
  | cons y ys ih =>
    intro acc x hx
    rcases ih (upsertHit better key acc y) x hx with h' | h'
    · rcases mem_upsertHit h' with h'' | rfl
      · exact Or.inl h''
      · exact Or.inr (List.mem_cons_self _ _)
    · exact Or.inr (List.mem_cons_of_mem _ h')

theorem mem_dedupeBy {better : α → α → Bool} {key : α → String}
    {l : List α} {x : α} (hx : x ∈ dedupeBy better key l) : x ∈ l := by
  rcases mem_foldl_upsertHit l [] x hx with h' | h'
  · simp at h'
  · exact h'

/-- A `memory_items` row (`src/db/migrate.ts`).  `rowid` models the SQLite rowid
that keys the FTS index. -/
structure Item where
  id : String
  rowid : Nat
  type : MemoryType
  title : String
  content : String
  summary : String
  source : String
  scope : MemoryScope
  workspace : String
  tags : List String
  importance : ℚ
  status : MemoryStatus
  supersedesId : Option String
  contentHash : String
  createdAt : String
  updatedAt : String
deriving DecidableEq

/-- A `content_chunks` row. -/
structure ChunkRow where
  id : String
  memoryId : String
  seq : Nat
  pos : Nat
  tokenCount : Nat
  chunkText : String
  createdAt : String
  deletedAt : Option String
deriving DecidableEq

/-- A `chunk_embeddings` row. -/
structure EmbRow where
  chunkId : String
  embeddedAt : String
  model : String
deriving DecidableEq

/-- A `memory_items_fts` row: the (title, content, tags) projection keyed by
`content_rowid`, written by the triggers. -/
structure FtsRow where
  rowid : Nat
  title : String
  content : String
  tags : List String
deriving DecidableEq

/-- Sidecar metadata stored with a vector (`prepareChunkEmbeddings` metadata). -/
structure VecMeta where
  workspace : String
  scope : MemoryScope
  type : MemoryType
  status : MemoryStatus
deriving DecidableEq

/-- A document in the zvec collection (`createVectorCollectionWrapper.insert`). -/
structure VecDoc where
  id : String
  embedding : List ℚ
  meta : VecMeta
deriving DecidableEq

/-- A hit returned by `VectorCollection.query`; `fields*` model the metadata the
collection returns (`hit.fields.scope` etc.), possibly absent. -/
structure VectorHit where
  id : String
  score : ℚ
  fieldsScope : Option MemoryScope
  fieldsType : Option MemoryType
  fieldsStatus : Option MemoryStatus
deriving DecidableEq

/-- The relational metadata store: tables plus the next SQLite rowid. -/
structure Db where
  items : List Item
  chunks : List ChunkRow
  embeds : List EmbRow
  fts : List FtsRow
  nextRowid : Nat
deriving DecidableEq

/-- Metadata store plus the per-workspace vector collection. -/
structure EngineState where
  db : Db
  vectors : List VecDoc
deriving DecidableEq

/-- A search hit as produced by the lexical and vector layers. -/
structure SearchHit where
  id : String
  title : String
  snippet : String
  score : ℚ
  source : HitSource
  scope : MemoryScope
  type : MemoryType
  status : MemoryStatus
deriving DecidableEq

/-- A hit returned by `queryMemories`/`recall` (no status field). -/
structure QueryHit where
  id : String
  title : String
  score : ℚ
  source : HitSource
  snippet : String
  scope : MemoryScope
  type : MemoryType
deriving DecidableEq

/-- A chunk produced by `chunkDocument`. -/
structure Chunk where
  seq : Nat
  pos : Nat
  tokenCount : Nat
  text : String
deriving DecidableEq

/-- A candidate break point as produced by the `findBreakPoints` pre-scan
(position after the matched pattern, priority score). -/
structure BreakPoint where
  position : Nat
  score : ℚ
deriving DecidableEq

/-- Option record shared by the lexical and vector searches
(`LexicalSearchOptions`/`VectorSearchOptions`; empty string / empty lists model
absent optional fields, matching the JS truthiness tests). -/
structure SearchOpts where
  query : String
  workspace : String
  topK : Nat
  scopes : List MemoryScope
  types : List MemoryType
  statuses : List MemoryStatus
deriving DecidableEq

/-- Behaviour of the external collaborators: the FTS5 match engine and bm25
scorer, the zvec collection, the embedding provider, the gpt tokenizer, the
chunker's regex pre-scan, id generation and clock.  Boolean `…Fails` fields
model a throwing store call. -/
structure Oracles where
  ftsMatch : String → FtsRow → Bool
  bm25 : String → FtsRow → ℚ
  ftsSnippet : String → FtsRow → String
  ftsFails : Bool
  archivedFails : Bool
  embed : String → Except Unit (List ℚ)
  vecQuery : List ℚ → Nat → Option String → Except Unit (List VectorHit)
  hydrateFails : Bool
  embedBatch : List (String × String) → Except Unit (List (String × List ℚ))
  vecInsertFails : String → Bool
  vecDeleteFails : String → Bool
  finalizeFails : Bool
  tokenCount : String → Nat
  breakPoints : String → List BreakPoint
  hashContent : String → String
  embedModel : String
  freshId : String
  now : String

/-- Word characters of the tokeniser regex `[^\p{L}\p{N}_]` (ASCII fragment of
the Unicode letter/number classes). -/
def isWordChar (c : Char) : Bool := c.isAlphanum || c = '_'

/-- The quote characters replaced by spaces before tokenising (`"`, `'`, backtick). -/
def quoteChars : List Char := [Char.ofNat 34, Char.ofNat 39, Char.ofNat 96]

/-- Replace quote characters by spaces (`.replace` with the quote class). -/
def stripQuotes (s : String) : String :=
  String.mk (s.toList.map (fun c => if quoteChars.contains c then ' ' else c))

/-- Split a character list at every separator character (JS `split` on a
separator-class regex; empty pieces are produced at runs and at the ends and
are removed by the later length filter, exactly as in JS). -/
def splitRuns (p : Char → Bool) : List Char → List (List Char)
  | [] => [[]]
  | c :: cs =>
    let r := splitRuns p cs
    if p c then [] :: r
    else
      match r with
      | [] => [[c]]
      | t :: ts => (c :: t) :: ts

/-- The shared tokenising pipeline of `tokenizeForFts` and
`tokenizeForArchivedLookup`: lowercase, replace quotes with spaces, split on
non-word boundaries, trim, drop tokens shorter than 2, cap at `cap`. -/
def tokenizePipeline (cap : Nat) (input : String) : List String :=
  (((splitRuns (fun c => !isWordChar c) (stripQuotes (lowerStr input)).toList).map
      (fun t => trimStr (String.mk t))).filter (fun t => 2 ≤ t.length)).take cap

/-- Query tokeniser of `searchLexical` (cap 12). -/
def tokenizeForFts (input : String) : List String := tokenizePipeline 12 input

/-- Query tokeniser of the recall-level archived pass (cap 8). -/
def tokenizeForArchivedLookup (input : String) : List String := tokenizePipeline 8 input

/-- A double-quote as a one-character string. -/
def quoteStr : String := String.mk [Char.ofNat 34]

/-- Build the FTS match expression `"t1" AND "t2" …` (or `OR`). -/
def buildMatchQuery (tokens : List String) (isAnd : Bool) : String :=
  String.intercalate (if isAnd then " AND " else " OR ")
    (tokens.map (fun t => quoteStr ++ t ++ quoteStr))

/-- The SQL filter built by `buildFilterClause`, as a predicate on the joined
item row (conditions are added only for truthy/nonempty options). -/
def itemMatchesFilter (ws : String) (scopes : List MemoryScope)
    (types : List MemoryType) (statuses : List MemoryStatus) (m : Item) : Bool :=
  (ws = "" || m.workspace = ws) &&
  (scopes.isEmpty || scopes.contains m.scope) &&
  (types.isEmpty || types.contains m.type) &&
  (statuses.isEmpty || statuses.contains m.status)

/-- The FROM/JOIN/WHERE part of the lexical SQL: FTS rows matched by the engine,
joined to `memory_items` on the rowid, restricted by the filter clause. -/
def ftsJoinRows (o : Oracles) (db : Db) (matchQ : String) (opts : SearchOpts) :
    List (FtsRow × Item) :=
  db.fts.flatMap (fun f =>
    if o.ftsMatch matchQ f then
      (db.items.filter (fun m => m.rowid = f.rowid &&
        itemMatchesFilter opts.workspace opts.scopes opts.types opts.statuses m)).map
        (fun m => (f, m))
    else [])

/-- The BM25-to-score mapping of `mapRows`: `1 / (1 + |bm25|)`. -/
def bm25Score (b : ℚ) : ℚ := 1 / (1 + |b|)

/-- One output row of the lexical SQL, mapped to a hit (`mapRows`). -/
def mapRow (o : Oracles) (matchQ : String) (p : FtsRow × Item) : SearchHit :=
  let m := p.2
  let snip := o.ftsSnippet matchQ p.1
  { id := m.id, title := m.title,
    snippet := if snip = "" then sliceStr m.content 0 200 else snip,
    score := bm25Score (o.bm25 matchQ p.1),
    source := HitSource.lex, scope := m.scope, type := m.type, status := m.status }

/-- `executeSearch`: run one FTS match query, order by bm25 ascending, limit to
`topK`, and map the rows. -/
def executeSearch (o : Oracles) (db : Db) (matchQ : String) (opts : SearchOpts) :
    List SearchHit :=
  ((isortBy (fun a b => decide (o.bm25 matchQ a.1 < o.bm25 matchQ b.1))
      (ftsJoinRows o db matchQ opts)).take opts.topK).map (mapRow o matchQ)

/-- The fixed score of archived-fallback hits (`0.35`, i.e. the rational
`7/20`, given in normalised form so that concrete score comparisons
evaluate). -/
def archivedScore : ℚ := mkRat 7 20

/-- WHERE clause of `searchArchivedFallback`: archived status, workspace (when
truthy), optional scope/type restrictions, and a LIKE conjunction per token. -/
def archivedRowMatches (ws : String) (scopes : List MemoryScope)
    (types : List MemoryType) (tokens : List String) (m : Item) : Bool :=
  m.status = MemoryStatus.archived &&
  (ws = "" || m.workspace = ws) &&
  (scopes.isEmpty || scopes.contains m.scope) &&
  (types.isEmpty || types.contains m.type) &&
  tokens.all (fun tok =>
    likeContains tok (lowerStr m.title) || likeContains tok (lowerStr m.content))

/-- Map an archived row to its fixed-score hit. -/
def archivedHitOfItem (m : Item) : SearchHit :=
  { id := m.id, title := m.title, snippet := sliceStr m.content 0 200,
    score := archivedScore, source := HitSource.lex, scope := m.scope,
    type := m.type, status := m.status }

/-- Rows of the archived-fallback query: filtered items ordered by
`updated_at DESC`, limited to `topK`, mapped to fixed-score hits. -/
def searchArchivedFallbackRows (db : Db) (opts : SearchOpts)
    (tokens : List String) : List SearchHit :=
  ((isortBy (fun a b => strLtB b.updatedAt a.updatedAt)
      (db.items.filter (archivedRowMatches opts.workspace opts.scopes opts.types tokens))).take
    opts.topK).map archivedHitOfItem

/-- Trace of the store queries a lexical search issues, used to state the
AND-then-OR control flow. -/
inductive LexTrace where
  | fts (matchQ : String)
  | likeArchived (tokens : List String)
deriving DecidableEq

/-- Dedupe hits by id keeping the first position and the higher score (the
`new Map()` loop of `searchLexical`). -/
def dedupeHits (l : List SearchHit) : List SearchHit :=
  dedupeBy (fun a b => decide (b.score < a.score)) (fun h => h.id) l

/-- Dedupe, order by score descending, and truncate to `topK`. -/
def finishHits (topK : Nat) (merged : List SearchHit) : List SearchHit :=
  (isortBy (fun a b => decide (b.score < a.score)) (dedupeHits merged)).take topK

/-- `searchArchivedFallback` with its entry guard: without archived in the
requested statuses (or without tokens) it returns empty before touching the
store; otherwise it issues the LIKE query (which may throw). -/
def searchArchivedFallbackE (o : Oracles) (db : Db) (opts : SearchOpts)
    (tokens : List String) : Except ErrCode (List SearchHit × List LexTrace) :=
  if !(opts.statuses.contains MemoryStatus.archived) || tokens.isEmpty then
    Except.ok ([], [])
  else if o.archivedFails then Except.error ErrCode.database
  else Except.ok (searchArchivedFallbackRows db opts tokens, [LexTrace.likeArchived tokens])

/-- Body of `searchLexical` before its catch-all: blank and token guards, the
strict AND pass, the relaxed OR pass only when strict is empty and more than
one token remains, the archived fallback, merge/dedupe/sort/limit.  Also
returns the trace of issued store queries. -/
def searchLexicalCore (o : Oracles) (db : Db) (opts : SearchOpts) :
    Except ErrCode (List SearchHit × List LexTrace) :=
  if trimStr opts.query = "" then Except.ok ([], []) else
  let tokens := tokenizeForFts opts.query
  if tokens.isEmpty then Except.ok ([], []) else
  let strictQ := buildMatchQuery tokens true
  if o.ftsFails then Except.error ErrCode.database else
  let strictHits := executeSearch o db strictQ opts
  if !strictHits.isEmpty then
    (searchArchivedFallbackE o db opts tokens).map (fun p =>
      (finishHits opts.topK (strictHits ++ p.1), [LexTrace.fts strictQ] ++ p.2))
  else if tokens.length = 1 then
    (searchArchivedFallbackE o db opts tokens).map (fun p =>
      let merged := strictHits ++ p.1
      (if merged.isEmpty then merged else finishHits opts.topK merged,
        [LexTrace.fts strictQ] ++ p.2))
  else
    let relaxedQ := buildMatchQuery tokens false
    let activeHits := executeSearch o db relaxedQ opts
    (searchArchivedFallbackE o db opts tokens).map (fun p =>
      let merged := activeHits ++ p.1
      (if merged.isEmpty then merged else finishHits opts.topK merged,
        [LexTrace.fts strictQ, LexTrace.fts relaxedQ] ++ p.2))

/-- `searchLexical`: the core behind a catch-all that maps any store error to an
empty hit list. -/
def searchLexical (o : Oracles) (db : Db) (opts : SearchOpts) : List SearchHit :=
  match searchLexicalCore o db opts with
  | Except.ok p => p.1
  | Except.error _ => []

/-- Text of a status value as stored in the database / vector metadata. -/
def statusText : MemoryStatus → String
  | MemoryStatus.pending => "pending"
  | MemoryStatus.active => "active"
  | MemoryStatus.archived => "archived"
  | MemoryStatus.deleted => "deleted"

/-- Text of a scope value. -/
def scopeText : MemoryScope → String
  | MemoryScope.global => "global"
  | MemoryScope.workspace => "workspace"
  | MemoryScope.user => "user"

/-- Text of a type value. -/
def typeText : MemoryType → String
  | MemoryType.fact => "fact"
  | MemoryType.decision => "decision"
  | MemoryType.preference => "preference"
  | MemoryType.event => "event"
  | MemoryType.goal => "goal"
  | MemoryType.todo => "todo"

/-- `escapeFilterValue`: escape backslashes and double quotes in a zvec filter
string literal. -/
def escapeFilterValue (v : String) : String :=
  String.mk (v.toList.flatMap (fun c =>
    if c = '\\' then ['\\', '\\']
    else if c = Char.ofNat 34 then ['\\', Char.ofNat 34]
    else [c]))

/-- A double-quoted, escaped filter literal. -/
def quoteVal (s : String) : String := quoteStr ++ escapeFilterValue s ++ quoteStr

/-- `buildZvecFilter`: the metadata filter string sent to the vector collection
(workspace equality, status/scope/type disjunctions; scope and type literals are
quoted without escaping, as in the source). -/
def buildZvecFilter (ws : String) (scopes : List MemoryScope)
    (types : List MemoryType) (statuses : List MemoryStatus) : Option String :=
  let conds :=
    (if ws = "" then [] else ["workspace = " ++ quoteVal ws]) ++
    (if statuses.isEmpty then [] else
      ["(" ++ String.intercalate " or "
          (statuses.map (fun s => "status = " ++ quoteVal (statusText s))) ++ ")"]) ++
    (if scopes.isEmpty then [] else
      ["(" ++ String.intercalate " or "
          (scopes.map (fun s => "scope = " ++ quoteStr ++ scopeText s ++ quoteStr)) ++ ")"]) ++
    (if types.isEmpty then [] else
      ["(" ++ String.intercalate " or "
          (types.map (fun t => "type = " ++ quoteStr ++ typeText t ++ quoteStr)) ++ ")"])
  if conds.isEmpty then none else some (String.intercalate " and " conds)

/-- `hit.id.replace(/_[0-9]+$/, "")`: strip one trailing `_<digits>` suffix. -/
def stripChunkSuffix (id : String) : String :=
  let rev := id.toList.reverse
  let digits := rev.takeWhile (fun c => c.isDigit)
  match digits, rev.drop digits.length with
  | [], _ => id
  | _ :: _, c :: rs => if c = '_' then String.mk rs.reverse else id
  | _ :: _, [] => id

/-- `batchLookupMemories`: hydrate rows by id, restricted to the requested
statuses and (when truthy) the workspace. -/
def batchLookupMemories (db : Db) (ws : String) (memoryIds : List String)
    (statuses : List MemoryStatus) : List Item :=
  db.items.filter (fun m =>
    memoryIds.contains m.id && statuses.contains m.status &&
    (ws = "" || m.workspace = ws))

/-- First index at which `pat` occurs in `l` (JS `indexOf`). -/
def findSubIdx (pat : List Char) (l : List Char) : Option Nat :=
  match l with
  | [] => if listIsPre pat [] then some 0 else none
  | _ :: rest =>
    if listIsPre pat l then some 0 else (findSubIdx pat rest).map (· + 1)

/-- `extractSnippet`: the 200-character window around the first query word of
length > 2 found in the content, with ellipses; otherwise the first 200
characters. -/
def extractSnippet (content query : String) : String :=
  let lowerContent := (lowerStr content).toList
  let queryWords := ((splitRuns isJsSpace (lowerStr query).toList).map String.mk).filter
    (fun w => 2 < w.length)
  match queryWords.findSome? (fun w => findSubIdx w.toList lowerContent) with
  | some idx =>
    let start := idx - 50
    let stop := min content.length (idx + 150)
    let snip := sliceStr content start stop
    let snip := if 0 < start then "..." ++ snip else snip
    if stop < content.length then snip ++ "..." else snip
  | none => sliceStr content 0 200 ++ (if 200 < content.length then "..." else "")

/-- Body of `searchVector` before its catch-all: blank guard, query embedding,
vector query with the metadata filter, hydration from the metadata store, and
the discard of hits whose item is missing or filtered out. -/
def searchVectorCore (o : Oracles) (db : Db) (opts : SearchOpts) :
    Except ErrCode (List SearchHit) :=
  if trimStr opts.query = "" then Except.ok [] else
  match o.embed opts.query with
  | Except.error _ => Except.error ErrCode.database
  | Except.ok embedding =>
    let filter := buildZvecFilter opts.workspace opts.scopes opts.types opts.statuses
    match o.vecQuery embedding opts.topK filter with
    | Except.error _ => Except.error ErrCode.database
    | Except.ok results =>
      if results.isEmpty then Except.ok [] else
      if o.hydrateFails then Except.error ErrCode.database else
      let memoryIds := results.map (fun h => stripChunkSuffix h.id)
      let lookupRows := batchLookupMemories db opts.workspace memoryIds opts.statuses
      Except.ok ((results.map (fun h =>
        let mid := stripChunkSuffix h.id
        match lookupRows.find? (fun m => m.id = mid) with
        | none => none
        | some mem => some
          { id := mid, title := mem.title,
            snippet := extractSnippet mem.content opts.query,
            score := h.score, source := HitSource.vec,
            scope := h.fieldsScope.getD MemoryScope.workspace,
            type := h.fieldsType.getD MemoryType.fact,
            status := mem.status : SearchHit })).reduceOption)

/-- `searchVector`: the core behind a catch-all returning an empty list. -/
def searchVector (o : Oracles) (db : Db) (opts : SearchOpts) : List SearchHit :=
  match searchVectorCore o db opts with
  | Except.ok hits => hits
  | Except.error _ => []

/-- Fusion options (`FusionOptions` with `DEFAULT_OPTIONS`). -/
structure FusionOptions where
  candidateLimit : Nat
  firstListWeight : ℚ
  topRankBonus : ℚ
  minScore : ℚ
deriving DecidableEq

/-- The defaults `{candidateLimit: 30, firstListWeight: 2.0, topRankBonus: 0.05,
minScore: 0.25}`. -/
def defaultFusionOptions : FusionOptions :=
  { candidateLimit := 30, firstListWeight := 2, topRankBonus := 1/20, minScore := 1/4 }

/-- The constant `RRF_K = 60`. -/
def rrfK : ℚ := 60

/-- Accumulator entry of the fusion map: kept hit, accumulated score, and which
lists contributed. -/
structure RrfEntry where
  hit : SearchHit
  rrfScore : ℚ
  srcLex : Bool
  srcVec : Bool
deriving DecidableEq

/-- `rrfMap.set` of the lexical pass: replace the value at the id, keeping the
first-insertion position, otherwise append. -/
def rrfSetEntry (acc : List RrfEntry) (e : RrfEntry) : List RrfEntry :=
  match acc with
  | [] => [e]
  | x :: xs => if x.hit.id = e.hit.id then e :: xs else x :: rrfSetEntry xs e

/-- Vector-pass merge: add the contribution and the `vec` source to an existing
entry, otherwise append a fresh entry. -/
def rrfMergeEntry (acc : List RrfEntry) (e : RrfEntry) : List RrfEntry :=
  match acc with
  | [] => [e]
  | x :: xs =>
    if x.hit.id = e.hit.id then
      { x with rrfScore := x.rrfScore + e.rrfScore, srcVec := true } :: xs
    else x :: rrfMergeEntry xs e

/-- Maximum of a list of rationals (`Math.max(...)`, 0 on empty). -/
def listMaxQ : List ℚ → ℚ
  | [] => 0
  | x :: xs => xs.foldl max x

/-- `rrfFusion`: weighted reciprocal-rank fusion of the two ranked lists with
first-list weight and top-rank bonus, normalisation by the maximum accumulated
score, `minScore` cutoff, and descending sort. -/
def rrfFusion (lexResults vecResults : List SearchHit) (fo : FusionOptions) :
    List SearchHit :=
  let lexCandidates := lexResults.take fo.candidateLimit
  let vecCandidates := vecResults.take fo.candidateLimit
  let afterLex := lexCandidates.enum.foldl (fun acc (p : Nat × SearchHit) =>
    rrfSetEntry acc
      { hit := p.2,
        rrfScore := fo.firstListWeight * (1 / ((p.1 : ℚ) + rrfK)) +
          (if p.1 = 0 then fo.topRankBonus else 0),
        srcLex := true, srcVec := false }) []
  let merged := vecCandidates.enum.foldl (fun acc (p : Nat × SearchHit) =>
    rrfMergeEntry acc
      { hit := p.2,
        rrfScore := 1 / ((p.1 : ℚ) + rrfK) +
          (if p.1 = 0 then fo.topRankBonus else 0),
        srcLex := false, srcVec := true }) afterLex
  if merged.isEmpty then [] else
  let maxScore := listMaxQ (merged.map (fun r => r.rrfScore))
  let normalized := (merged.map (fun r =>
    { r.hit with
      score := if 0 < maxScore then r.rrfScore / maxScore else 0,
      source :=
        if r.srcLex && r.srcVec then HitSource.hybrid
        else if r.srcLex then HitSource.lex
        else HitSource.vec })).filter (fun h => fo.minScore ≤ h.score)
  isortBy (fun a b => decide (b.score < a.score)) normalized

/-- Retrieval mode of `queryMemories`/`recall`. -/
inductive QueryMode where
  | hybrid
  | lexical
  | vector
deriving DecidableEq

/-- `searchArchivedByKeyword` of the recall layer (`src/search/index.ts`): LIKE
conjunction over archived rows of the workspace, ordered by `updated_at DESC`,
fixed score 0.35.  Unlike the lexical-layer fallback, the workspace clause is
unconditional and the call is not protected by any catch. -/
def searchArchivedByKeywordE (o : Oracles) (db : Db) (query ws : String)
    (scopes : List MemoryScope) (types : List MemoryType) (topK : Nat) :
    Except ErrCode (List SearchHit) :=
  let tokens := tokenizeForArchivedLookup query
  if tokens.isEmpty then Except.ok [] else
  if o.archivedFails then Except.error ErrCode.database else
  Except.ok (((isortBy (fun a b => strLtB b.updatedAt a.updatedAt)
      (db.items.filter (fun m =>
        m.workspace = ws && m.status = MemoryStatus.archived &&
        (scopes.isEmpty || scopes.contains m.scope) &&
        (types.isEmpty || types.contains m.type) &&
        tokens.all (fun tok =>
          likeContains tok (lowerStr m.title) ||
          likeContains tok (lowerStr m.content))))).take topK).map
    (fun m =>
      { id := m.id, title := m.title, snippet := sliceStr m.content 0 200,
        score := archivedScore, source := HitSource.lex, scope := m.scope,
        type := m.type, status := MemoryStatus.archived : SearchHit }))

/-- `QueryInput` of `queryMemories`; `none`/`[]` model absent optional fields. -/
structure QueryInput where
  query : String
  workspace : Option String
  scopes : Option (List MemoryScope)
  types : List MemoryType
  includeSuperseded : Option Bool
  topK : Option Nat
  minScore : Option ℚ
  mode : Option QueryMode

/-- `statuses = includeSuperseded ? ["active","archived"] : ["active"]`. -/
def queryStatuses (includeSuperseded : Bool) : List MemoryStatus :=
  if includeSuperseded then [MemoryStatus.active, MemoryStatus.archived]
  else [MemoryStatus.active]

/-- Drop the status field for the `QueryHit` result shape. -/
def toQueryHit (h : SearchHit) : QueryHit :=
  { id := h.id, title := h.title, score := h.score, source := h.source,
    snippet := h.snippet, scope := h.scope, type := h.type }

/-- The destructured default `workspace = "default"` of `queryMemories`. -/
def queryWs (input : QueryInput) : String := input.workspace.getD "default"

/-- The destructured default `scopes = ["workspace", "global"]`. -/
def queryScopes (input : QueryInput) : List MemoryScope :=
  input.scopes.getD [MemoryScope.workspace, MemoryScope.global]

/-- The `SearchOpts` `queryMemories` passes to both `searchLexical` and
`searchVector` (all defaults applied). -/
def queryOpts (input : QueryInput) : SearchOpts :=
  { query := input.query, workspace := queryWs input, topK := input.topK.getD 30,
    scopes := queryScopes input, types := input.types,
    statuses := queryStatuses (input.includeSuperseded.getD false) }

/-- Mode dispatch of `queryMemories`: lexical only, vector only, or RRF fusion
of both (candidate limit 30, the caller's `minScore`, default 0.25). -/
def queryModeResults (o : Oracles) (db : Db) (input : QueryInput) :
    List SearchHit :=
  match input.mode.getD QueryMode.hybrid with
  | QueryMode.lexical => searchLexical o db (queryOpts input)
  | QueryMode.vector => searchVector o db (queryOpts input)
  | QueryMode.hybrid =>
    rrfFusion (searchLexical o db (queryOpts input))
      (searchVector o db (queryOpts input))
      { defaultFusionOptions with candidateLimit := 30, minScore := input.minScore.getD (1/4) }

/-- The `includeSuperseded` merge of `queryMemories`: when archived-keyword hits
exist, merge by id keeping the higher score and re-sort descending. -/
def mergeArchived (results archivedHits : List SearchHit) : List SearchHit :=
  if archivedHits.isEmpty then results
  else isortBy (fun a b => decide (b.score < a.score))
    (dedupeHits (results ++ archivedHits))

/-- `queryMemories` (`src/search/index.ts`): defaults, mode dispatch, fusion for
hybrid, the uncaught archived-keyword pass when `includeSuperseded`, merge by id
keeping the higher score, and the final `topK` truncation. -/
def queryMemories (o : Oracles) (db : Db) (input : QueryInput) :
    Except ErrCode (List QueryHit) :=
  match (if input.includeSuperseded.getD false then
      searchArchivedByKeywordE o db input.query (queryWs input)
        (queryScopes input) input.types (input.topK.getD 30)
    else Except.ok []) with
  | Except.error e => Except.error e
  | Except.ok archivedHits =>
    Except.ok (((mergeArchived (queryModeResults o db input) archivedHits).take
      (input.topK.getD 30)).map toQueryHit)

/-- Parsed `RecallFilters` (Zod defaults already applied; `scopes := none` and
`types := []` model absent optional fields). -/
structure RecallFilters where
  scopes : Option (List MemoryScope)
  types : List MemoryType
  includeSuperseded : Bool
  topK : Nat
  minScore : ℚ
  mode : QueryMode

/-- The Zod defaults of `RecallFiltersSchema`. -/
def defaultRecallFilters : RecallFilters :=
  { scopes := none, types := [], includeSuperseded := false, topK := 30,
    minScore := 1/4, mode := QueryMode.hybrid }

/-- `recall` (`src/core/recall.ts`): blank-query validation, then
`queryMemories` over the context workspace; store errors surface as `DATABASE`.
Filters are received already schema-validated. -/
def recallMemories (o : Oracles) (db : Db) (ctxWorkspace query : String)
    (filters : RecallFilters) : Except ErrCode (List QueryHit) :=
  if trimStr query = "" then Except.error ErrCode.validation else
  queryMemories o db
    { query := trimStr query,
      workspace := some ctxWorkspace,
      scopes := some (filters.scopes.getD [MemoryScope.workspace, MemoryScope.global]),
      types := filters.types,
      includeSuperseded := some filters.includeSuperseded,
      topK := some filters.topK,
      minScore := some filters.minScore,
      mode := some filters.mode }

/-- `get` (`src/core/get.ts`): id validation, then the workspace-scoped row
lookup. -/
def getMemory (db : Db) (ctxWorkspace id : String) : Except ErrCode (Option Item) :=
  if id = "" then Except.error ErrCode.validation
  else Except.ok (db.items.find? (fun m => m.id = id && m.workspace = ctxWorkspace))

/-- `getMemoryItemStatus` (`src/core/utils.ts`). -/
def getMemoryItemStatus (db : Db) (ws id : String) : Option MemoryStatus :=
  (db.items.find? (fun m => m.id = id && m.workspace = ws)).map (fun m => m.status)

/-- The FTS projection of an item, as the triggers insert it. -/
def ftsRowOfItem (it : Item) : FtsRow :=
  { rowid := it.rowid, title := it.title, content := it.content, tags := it.tags }

/-- `INSERT INTO memory_items …` with its after-insert trigger: the row gets the
next rowid; an FTS row is inserted only when the new status is `active`. -/
def sqlInsertItem (db : Db) (it : Item) : Db :=
  let r := { it with rowid := db.nextRowid }
  { db with
    items := db.items ++ [r],
    fts := db.fts ++ (if r.status = MemoryStatus.active then [ftsRowOfItem r] else []),
    nextRowid := db.nextRowid + 1 }

/-- Row transform of an UPDATE (the rowid never changes). -/
def applyUpd (upd : Item → Item) (it : Item) : Item :=
  { upd it with rowid := it.rowid }

/-- The conditional FTS reinsert of the after-update trigger: a fresh row only
when the new status is `active`. -/
def updFtsRow (upd : Item → Item) (it : Item) : Option FtsRow :=
  if (applyUpd upd it).status = MemoryStatus.active then
    some (ftsRowOfItem (applyUpd upd it))
  else none

/-- `UPDATE memory_items …` with its after-update trigger: for every updated row
with `old.status = 'active' OR new.status = 'active'`, the stale FTS row is
deleted and a fresh one inserted only when the new status is `active`. -/
def sqlUpdateItems (db : Db) (sel : Item → Bool) (upd : Item → Item) : Db :=
  let touched := db.items.filter (fun it => sel it &&
    (it.status = MemoryStatus.active || (applyUpd upd it).status = MemoryStatus.active))
  let deadRowids := touched.map (fun it => it.rowid)
  let newFtsRows := touched.filterMap (updFtsRow upd)
  { db with
    items := db.items.map (fun it => if sel it then applyUpd upd it else it),
    fts := db.fts.filter (fun f => !(deadRowids.contains f.rowid)) ++ newFtsRows }

/-- `updateMemoryStatus` prepared statement of `save`. -/
def sqlUpdateStatus (db : Db) (id ws : String) (st : MemoryStatus) (ts : String) : Db :=
  sqlUpdateItems db (fun it => it.id = id && it.workspace = ws)
    (fun it => { it with status := st, updatedAt := ts })

/-- `DELETE FROM memory_items WHERE id = ? AND workspace = ?` with the
after-delete trigger and the `ON DELETE CASCADE` of `content_chunks` and
`chunk_embeddings` (foreign keys are ON, `src/db/index.ts`). -/
def sqlDeleteItem (db : Db) (id ws : String) : Db :=
  let victims := db.items.filter (fun it => it.id = id && it.workspace = ws)
  if victims.isEmpty then db else
  let victimRowids := victims.map (fun it => it.rowid)
  let deadChunkIds := (db.chunks.filter (fun c => c.memoryId = id)).map (fun c => c.id)
  { items := db.items.filter (fun it => !(it.id = id && it.workspace = ws)),
    chunks := db.chunks.filter (fun c => !(c.memoryId = id)),
    embeds := db.embeds.filter (fun e => !(deadChunkIds.contains e.chunkId)),
    fts := db.fts.filter (fun f => !(victimRowids.contains f.rowid)),
    nextRowid := db.nextRowid }

/-- Chunking options (`ChunkingOptions`; `preserveHeadings` is read nowhere in
the chunker body and is omitted). -/
structure ChunkingOptions where
  maxTokens : Nat
  overlapTokens : Nat
deriving DecidableEq

/-- `DEFAULT_CHUNK_SIZE_TOKENS = 900`, `DEFAULT_OVERLAP_TOKENS = floor(900 * 0.15)`. -/
def defaultChunkingOptions : ChunkingOptions :=
  { maxTokens := 900, overlapTokens := 135 }

/-- `estimateCharsForTokens`: tokens ≈ chars / 4. -/
def estimateCharsForTokens (tokens : Nat) : Nat := tokens * 4

/-- Distance-weighted score of a candidate break point
(`point.score * (1 - (distance / maxChars)^2)`). -/
def bpScore (targetEnd maxChars : Nat) (p : BreakPoint) : ℚ :=
  p.score * (1 - (|(p.position : ℚ) - (targetEnd : ℚ)| / (maxChars : ℚ)) ^ 2)

/-- The best-candidate loop of `findChunkEnd` (strict improvement, first wins
ties), seeded with the first candidate and its score. -/
def bestBreakPoint (targetEnd maxChars : Nat) :
    BreakPoint → ℚ → List BreakPoint → BreakPoint
  | b, _, [] => b
  | b, bs, p :: rest =>
    let s := bpScore targetEnd maxChars p
    if bs < s then bestBreakPoint targetEnd maxChars p s rest
    else bestBreakPoint targetEnd maxChars b bs rest

/-- `findChunkEnd`: last-chunk shortcut, candidate filter over `(pos, targetEnd]`,
fallback to `targetEnd`, else the distance-weighted best candidate.  The
`codeFences` parameter of the source is not read in the body and is omitted;
the break-point list (the regex pre-scan result) is a parameter. -/
def findChunkEnd (content : String) (startPos maxTokens : Nat)
    (breakPoints : List BreakPoint) : Nat :=
  let maxChars := estimateCharsForTokens maxTokens
  let targetEnd := min (startPos + maxChars) content.length
  if content.length ≤ targetEnd then content.length
  else
    let candidates := breakPoints.filter (fun bp =>
      startPos < bp.position && bp.position ≤ targetEnd)
    match candidates with
    | [] => targetEnd
    | c :: cs =>
      (bestBreakPoint targetEnd maxChars c (bpScore targetEnd maxChars c) cs).position

/-- The position advance at the end of each loop iteration: overlap step,
the at-least-50%-new-content guard, and the at-least-one-character guard
(JS `Math.max(chunkEnd - overlapChars, pos + floor((chunkEnd - pos) * 0.5))`
followed by `Math.max(newPosition, pos + 1)`; negative intermediate values
clamp to 0 and are absorbed by the outer max exactly as in JS). -/
def nextChunkPos (opts : ChunkingOptions) (pos chunkEnd : Nat) : Nat :=
  max (max (chunkEnd - estimateCharsForTokens opts.overlapTokens)
        (pos + (chunkEnd - pos) / 2))
    (pos + 1)

/-- The while loop of `chunkDocument`, with explicit fuel (the loop advances the
position by at least one character per iteration, so `content.length` fuel
suffices; see `chunkLoop_fuel_sufficient`).  Mirrors the safety branch for
`chunkEnd ≤ pos`, the trim-and-emit step, and the overlap advance with its two
progress guards. -/
def chunkLoop (o : Oracles) (opts : ChunkingOptions) (content : String)
    (breakPoints : List BreakPoint) : Nat → Nat → Nat → List Chunk
  | 0, _, _ => []
  | fuel + 1, pos, seq =>
    if pos < content.length then
      let chunkEnd := findChunkEnd content pos opts.maxTokens breakPoints
      if chunkEnd ≤ pos then
        let forceEnd := min (pos + 100) content.length
        if content.length ≤ forceEnd then []
        else
          let remainingText := trimStr (sliceStr content pos content.length)
          if 0 < remainingText.length then
            [{ seq := seq, pos := pos, tokenCount := o.tokenCount remainingText,
               text := remainingText }]
          else []
      else
        let chunkText := trimStr (sliceStr content pos chunkEnd)
        let emitted :=
          if 0 < chunkText.length then
            [{ seq := seq, pos := pos, tokenCount := o.tokenCount chunkText,
               text := chunkText : Chunk }]
          else []
        let seq' := if 0 < chunkText.length then seq + 1 else seq
        let pos' := nextChunkPos opts pos chunkEnd
        emitted ++
          (if content.length ≤ pos' then []
           else chunkLoop o opts content breakPoints fuel pos' seq')
    else []

/-- `chunkDocument`: empty/whitespace-only content yields no chunks; otherwise
run the loop from position 0 (the fuel `content.length + 1` is sufficient). -/
def chunkDocument (o : Oracles) (opts : ChunkingOptions) (content : String) :
    List Chunk :=
  if trimStr content = "" then []
  else chunkLoop o opts content (o.breakPoints content) (content.length + 1) 0 0

/-- A prepared chunk of `prepareChunkEmbeddings`: chunk id, chunk data, its
embedding, and the vector metadata (status deliberately `"active"` while the
row is still pending). -/
structure PChunk where
  chunkId : String
  seq : Nat
  pos : Nat
  tokenCount : Nat
  text : String
  embedding : List ℚ
  meta : VecMeta
deriving DecidableEq

/-- `chunk_id = "<memory_id>_<seq>"`. -/
def mkChunkId (memoryId : String) (seq : Nat) : String :=
  memoryId ++ "_" ++ toString seq

/-- Schema-validated `SaveMemoryInput`. -/
structure SaveInput where
  type : MemoryType
  title : String
  content : String
  summary : String
  source : String
  scope : MemoryScope
  tags : List String
  importance : ℚ
  supersedesId : Option String
deriving DecidableEq

/-- `SaveResult`. -/
structure SaveResult where
  id : String
  isNew : Bool
  supersededId : Option String
deriving DecidableEq

/-- `prepareChunkEmbeddings`: chunk the content, batch-embed all chunk texts
(ids `<memory_id>_<seq>`), and require an embedding for every chunk id (the JS
`Map` keeps the last entry per id, hence the reversed lookup); failures map to
`EMBEDDING`. -/
def prepareChunkEmbeddings (o : Oracles) (memoryId content : String)
    (type : MemoryType) (scope : MemoryScope) (ws : String) :
    Except ErrCode (List PChunk) :=
  let chunks := chunkDocument o defaultChunkingOptions content
  if chunks.isEmpty then Except.ok [] else
  let chunkInputs := chunks.map (fun c => (mkChunkId memoryId c.seq, c.text))
  match o.embedBatch chunkInputs with
  | Except.error _ => Except.error ErrCode.embedding
  | Except.ok embeddings =>
    match chunks.mapM (fun c =>
        let chunkId := mkChunkId memoryId c.seq
        (embeddings.reverse.find? (fun e => e.1 = chunkId)).map (fun e =>
          { chunkId := chunkId, seq := c.seq, pos := c.pos,
            tokenCount := c.tokenCount, text := c.text, embedding := e.2,
            meta := { workspace := ws, scope := scope, type := type,
                      status := MemoryStatus.active } : PChunk })) with
    | none => Except.error ErrCode.embedding
    | some prepared => Except.ok prepared

/-- `INSERT OR REPLACE INTO chunk_embeddings`. -/
def insertOrReplaceEmb (embeds : List EmbRow) (e : EmbRow) : List EmbRow :=
  embeds.filter (fun x => !(x.chunkId = e.chunkId)) ++ [e]

/-- Phase-2 vector writes: insert vectors in chunk order; on the first throwing
insert, stop (earlier inserts persist) and report failure. -/
def insertVectorsLoop (o : Oracles) : List PChunk → List VecDoc × Bool
  | [] => ([], false)
  | c :: cs =>
    if o.vecInsertFails c.chunkId then ([], true)
    else
      let r := insertVectorsLoop o cs
      ({ id := c.chunkId, embedding := c.embedding, meta := c.meta } :: r.1, r.2)

/-- `getChunkIdsForMemory` (`src/core/vector-sync.ts`). -/
def getChunkIdsForMemory (db : Db) (memoryId : String) : List String :=
  (db.chunks.filter (fun c => c.memoryId = memoryId)).map (fun c => c.id)

/-- `deleteVectorsByChunkIds`: delete vectors one by one; the first throwing
delete aborts the loop (earlier deletes persist) and reports failure. -/
def deleteVectorsByChunkIds (o : Oracles) (vectors : List VecDoc) :
    List String → List VecDoc × Bool
  | [] => (vectors, false)
  | cid :: rest =>
    if o.vecDeleteFails cid then (vectors, true)
    else deleteVectorsByChunkIds o (vectors.filter (fun v => !(v.id = cid))) rest

/-- `deleteVectorsForMemory`: no-op when the item has no chunks. -/
def deleteVectorsForMemory (o : Oracles) (db : Db) (vectors : List VecDoc)
    (memoryId : String) : List VecDoc × Bool :=
  let chunkIds := getChunkIdsForMemory db memoryId
  if chunkIds.isEmpty then (vectors, false)
  else deleteVectorsByChunkIds o vectors chunkIds

/-- The pending `memory_items` row phase 1 inserts. -/
def pendingItem (input : SaveInput) (id ws hash now : String)
    (supersededId : Option String) : Item :=
  { id := id, rowid := 0, type := input.type, title := input.title,
    content := input.content, summary := input.summary,
    source := input.source, scope := input.scope, workspace := ws,
    tags := input.tags, importance := input.importance,
    status := MemoryStatus.pending, supersedesId := supersededId,
    contentHash := hash, createdAt := now, updatedAt := now }

/-- The `content_chunks` row inserted for one prepared chunk. -/
def chunkRowOf (id now : String) (c : PChunk) : ChunkRow :=
  { id := c.chunkId, memoryId := id, seq := c.seq, pos := c.pos,
    tokenCount := c.tokenCount, chunkText := c.text, createdAt := now,
    deletedAt := none }

/-- The `chunk_embeddings` row inserted for one prepared chunk. -/
def embRowOf (o : Oracles) (now : String) (c : PChunk) : EmbRow :=
  { chunkId := c.chunkId, embeddedAt := now, model := o.embedModel }

/-- The metadata store after phase 1 of `save`: pending item row (FTS untouched
since the status is not active), chunk rows, and `INSERT OR REPLACE`d embedding
rows. -/
def savePhase1Db (o : Oracles) (db : Db) (input : SaveInput)
    (id ws now : String) (supersededId : Option String)
    (prepared : List PChunk) : Db :=
  let dbIns := sqlInsertItem db
    (pendingItem input id ws (o.hashContent input.content) now supersededId)
  { dbIns with
    chunks := dbIns.chunks ++ prepared.map (chunkRowOf id now),
    embeds := prepared.foldl (fun acc c => insertOrReplaceEmb acc (embRowOf o now c))
      dbIns.embeds }

/-- The body of `save` after the supersede preconditions: prepare, pending
insert (phase 1), vector writes with rollback (phase 2), finalise with
compensation (phase 3), superseded-vector cleanup (phase 4). -/
def saveAfterChecks (o : Oracles) (ws : String) (s : EngineState)
    (input : SaveInput) (id now : String) (supersededId : Option String) :
    EngineState × Except ErrCode SaveResult :=
  match prepareChunkEmbeddings o id input.content input.type input.scope ws with
  | Except.error e => (s, Except.error e)
  | Except.ok prepared =>
    let db1 := savePhase1Db o s.db input id ws now supersededId prepared
    match insertVectorsLoop o prepared with
    | (inserted, true) =>
      let db2 := sqlDeleteItem db1 id ws
      ({ db := db2, vectors := s.vectors ++ inserted }, Except.error ErrCode.database)
    | (inserted, false) =>
      let s2 : EngineState := { db := db1, vectors := s.vectors ++ inserted }
      if o.finalizeFails then
        let afterDel := deleteVectorsForMemory o s2.db s2.vectors id
        let db3 := sqlDeleteItem s2.db id ws
        ({ db := db3, vectors := afterDel.1 }, Except.error ErrCode.database)
      else
        let dbF := sqlUpdateStatus s2.db id ws MemoryStatus.active o.now
        let dbF :=
          match supersededId with
          | some sid => sqlUpdateStatus dbF sid ws MemoryStatus.archived o.now
          | none => dbF
        match supersededId with
        | some sid =>
          match deleteVectorsForMemory o dbF s2.vectors sid with
          | (vecs, true) =>
            ({ db := dbF, vectors := vecs }, Except.error ErrCode.database)
          | (vecs, false) =>
            ({ db := dbF, vectors := vecs },
              Except.ok { id := id, isNew := true, supersededId := some sid })
        | none =>
          ({ db := dbF, vectors := s2.vectors },
            Except.ok { id := id, isNew := true, supersededId := none })

/-- `save` (`src/core/save.ts`): supersede preconditions (`NOT_FOUND` when the
target is missing from the workspace, `CONFLICT` when it is not active), then
the two-phase protocol.  The input is received schema-validated; the fresh id
and timestamps come from the oracles. -/
def save (o : Oracles) (ws : String) (s : EngineState) (input : SaveInput) :
    EngineState × Except ErrCode SaveResult :=
  let id := o.freshId
  match input.supersedesId with
  | some sid =>
    match getMemoryItemStatus s.db ws sid with
    | none => (s, Except.error ErrCode.notFound)
    | some st =>
      if st = MemoryStatus.active then
        saveAfterChecks o ws s input id o.now (some sid)
      else (s, Except.error ErrCode.conflict)
  | none => saveAfterChecks o ws s input id o.now none

/-- A parsed document entering the embed/store phase of `ingestWorkspace`
(change detection already passed): the freshly generated memory id (`doc.id`
from `parseMarkdown`, a random hex string), the SHA-256 `contentHash`, the
chunks of its content, and the id of the prior active row for the same source,
if any. -/
structure IngestDoc where
  docId : String
  contentHash : String
  chunks : List Chunk
  existing : Option String
deriving DecidableEq

/-- The `allChunks` id/text pairs of one batch (phase 4 of `ingestWorkspace`):
ids are `"<doc.contentHash>_<chunk.seq>"`. -/
def ingestChunkInputs (batch : List IngestDoc) : List (String × String) :=
  batch.flatMap (fun d => d.chunks.map (fun c => (mkChunkId d.contentHash c.seq, c.text)))

/-- Ids requested from `embedBatch` for one batch. -/
def ingestRequestedIds (batch : List IngestDoc) : List String :=
  (ingestChunkInputs batch).map (fun p => p.1)

/-- Observable store effects of the storing loop for one document:
`content_chunks` ids inserted, vector ids actually inserted into the
collection, and chunk ids marked embedded in `chunk_embeddings`. -/
structure IngestEffects where
  chunkRowIds : List String
  vectorInsertIds : List String
  embeddedMarkIds : List String
deriving DecidableEq

/-- The storing loop body for one document: `memoryId` is `doc.id` (both
`insertMemoryItem` and `updateMemoryItem` return it); chunk rows are inserted
under `"<memoryId>_<seq>"`; a vector is inserted only when an embedding with
exactly that chunk id came back from `embedBatch`; all chunk ids are then
marked embedded unconditionally. -/
def ingestStoreDoc (embeddings : List (String × List ℚ)) (d : IngestDoc) :
    IngestEffects :=
  let memoryId := d.docId
  let chunkIds := d.chunks.map (fun c => mkChunkId memoryId c.seq)
  { chunkRowIds := chunkIds,
    vectorInsertIds := d.chunks.filterMap (fun c =>
      let chunkId := mkChunkId memoryId c.seq
      (embeddings.find? (fun e => e.1 = chunkId)).map (fun _ => chunkId)),
    embeddedMarkIds := chunkIds }

/-- One embed/store batch of `ingestWorkspace`: request embeddings for the
`contentHash`-keyed ids, then store every document. -/
def ingestBatch (o : Oracles) (batch : List IngestDoc) :
    Except Unit (List String × List IngestEffects) :=
  match o.embedBatch (ingestChunkInputs batch) with
  | Except.error e => Except.error e
  | Except.ok embeddings =>
    Except.ok (ingestRequestedIds batch, batch.map (ingestStoreDoc embeddings))

/-- One trigger-mediated mutation of `memory_items`: the row-level insert,
update and delete that every engine write (save, ingest upsert, soft delete,
reindex, supersede) compiles to. -/
inductive DbStep : Db → Db → Prop where
  | insert (db : Db) (it : Item) : DbStep db (sqlInsertItem db it)
  | update (db : Db) (sel : Item → Bool) (upd : Item → Item) :
      DbStep db (sqlUpdateItems db sel upd)
  | delete (db : Db) (id ws : String) : DbStep db (sqlDeleteItem db id ws)

/-- Reachability through trigger-mediated mutations. -/
inductive DbReach : Db → Db → Prop where
  | refl (db : Db) : DbReach db db
  | step {a b c : Db} : DbReach a b → DbStep b c → DbReach a c

/-- FTS synchronisation invariant: an item with status `active` has exactly one
FTS row under its rowid; an item with any other status has none. -/
def FtsInv (db : Db) : Prop :=
  ∀ it ∈ db.items,
    db.fts.countP (fun f => decide (f.rowid = it.rowid)) =
      (if it.status = MemoryStatus.active then 1 else 0)

/-- Well-formedness of the store: rowids are distinct and below the rowid
counter, FTS rowids are below the counter. -/
structure DbWf (db : Db) : Prop where
  rowidLt : ∀ it ∈ db.items, it.rowid < db.nextRowid
  rowidNodup : (db.items.map (fun it => it.rowid)).Nodup
  ftsRowidLt : ∀ f ∈ db.fts, f.rowid < db.nextRowid

theorem applyUpd_rowid (upd : Item → Item) (it : Item) :
    (applyUpd upd it).rowid = it.rowid := rfl

theorem countP_filter_of_imp {p q : α → Bool} (l : List α)
    (h : ∀ a, p a = true → q a = true) :
    (l.filter q).countP p = l.countP p := by
  induction l with
  | nil => rfl
  | cons a as ih =>
    by_cases hq : q a = true
    · by_cases hp : p a = true
      · simp [List.filter_cons, hq, List.countP_cons, hp, ih]
      · simp [List.filter_cons, hq, List.countP_cons, hp, ih]
    · have hp : p a = false := by
        cases hpa : p a
        · rfl
        · exact absurd (h a hpa) hq
      simp [List.filter_cons, hq, List.countP_cons, hp, ih]

theorem countP_filter_zero_of {p q : α → Bool} (l : List α)
    (h : ∀ a, p a = true → q a = false) :
    (l.filter q).countP p = 0 := by
  rw [List.countP_eq_zero]
  intro a ha
  rcases List.mem_filter.mp ha with ⟨_, hq⟩
  intro hp
  rw [h a hp] at hq
  exact Bool.false_ne_true hq

/-- New FTS rows produced by an update contribute nothing at a rowid that no
touched row has. -/
theorem countP_newFts_zero (upd : Item → Item) (r : Nat) (T : List Item)
    (h : ∀ t ∈ T, t.rowid ≠ r) :
    (T.filterMap (updFtsRow upd)).countP (fun f => decide (f.rowid = r)) = 0 := by
  induction T with
  | nil => rfl
  | cons t ts ih =>
    have hts : ∀ u ∈ ts, u.rowid ≠ r := fun u hu => h u (List.mem_cons_of_mem _ hu)
    by_cases hst : (applyUpd upd t).status = MemoryStatus.active
    · have hrow : ((ftsRowOfItem (applyUpd upd t)).rowid = r) = False := by
        simp [ftsRowOfItem, applyUpd_rowid, h t (List.mem_cons_self _ _)]
      simp [List.filterMap_cons, updFtsRow, hst, List.countP_cons, hrow, ih hts]
    · simp [List.filterMap_cons, updFtsRow, hst, ih hts]

/-- New FTS rows produced by an update contribute exactly the
active-conditioned row of the unique touched row at the given rowid. -/
theorem countP_newFts_mem (upd : Item → Item) (x : Item) (T : List Item)
    (hn : (T.map (fun t => t.rowid)).Nodup) (hx : x ∈ T) :
    (T.filterMap (updFtsRow upd)).countP (fun f => decide (f.rowid = x.rowid)) =
      (if (applyUpd upd x).status = MemoryStatus.active then 1 else 0) := by
  induction T with
  | nil => cases hx
  | cons t ts ih =>
    rcases List.mem_cons.mp hx with rfl | hx'
    · have hts : ∀ u ∈ ts, u.rowid ≠ x.rowid := by
        intro u hu heq
        exact (List.nodup_cons.mp hn).1 (List.mem_map.mpr ⟨u, hu, heq⟩)
      have h0 := countP_newFts_zero upd x.rowid ts hts
      by_cases hst : (applyUpd upd x).status = MemoryStatus.active
      · simp [List.filterMap_cons, updFtsRow, hst, List.countP_cons, ftsRowOfItem,
          applyUpd_rowid, h0]
      · simp [List.filterMap_cons, updFtsRow, hst, h0]
    · have hne : t.rowid ≠ x.rowid := by
        intro heq
        exact (List.nodup_cons.mp hn).1
          (List.mem_map.mpr ⟨x, hx', heq.symm⟩)
      have ihr := ih (List.nodup_cons.mp hn).2 hx'
      by_cases hst : (applyUpd upd t).status = MemoryStatus.active
      · have hrow : ((ftsRowOfItem (applyUpd upd t)).rowid = x.rowid) = False := by
          simp [ftsRowOfItem, applyUpd_rowid, hne]
        simp [List.filterMap_cons, updFtsRow, hst, List.countP_cons, hrow, ihr]
      · simp [List.filterMap_cons, updFtsRow, hst, ihr]

/-- Two items of a store with distinct rowids are equal when their rowids agree. -/
theorem item_eq_of_rowid (db : Db) (hn : (db.items.map (fun it => it.rowid)).Nodup)
    {x y : Item} (hx : x ∈ db.items) (hy : y ∈ db.items) (h : x.rowid = y.rowid) :
    x = y :=
  List.inj_on_of_nodup_map hn hx hy h

theorem dbStep_insert_preserves (db : Db) (it : Item)
    (hwf : DbWf db) (hinv : FtsInv db) :
    DbWf (sqlInsertItem db it) ∧ FtsInv (sqlInsertItem db it) := by
  constructor
  · refine ⟨?_, ?_, ?_⟩
    · intro x hx
      simp only [sqlInsertItem, List.mem_append, List.mem_singleton] at hx
      simp only [sqlInsertItem]
      rcases hx with hx | rfl
      · exact Nat.lt_succ_of_lt (hwf.rowidLt x hx)
      · exact Nat.lt_succ_self _
    · simp only [sqlInsertItem, List.map_append, List.map_cons, List.map_nil]
      rw [List.nodup_append]
      refine ⟨hwf.rowidNodup, List.nodup_singleton _, ?_⟩
      intro a ha hb
      simp only [List.mem_singleton] at hb
      rcases List.mem_map.mp ha with ⟨y, hy, rfl⟩
      exact absurd hb (Nat.ne_of_lt (hwf.rowidLt y hy))
    · intro f hf
      simp only [sqlInsertItem, List.mem_append] at hf
      simp only [sqlInsertItem]
      rcases hf with hf | hf
      · exact Nat.lt_succ_of_lt (hwf.ftsRowidLt f hf)
      · by_cases hst : it.status = MemoryStatus.active
        · simp only [hst, if_true, List.mem_singleton, eq_self_iff_true] at hf
          rw [hf]
          simp only [ftsRowOfItem]
          exact Nat.lt_succ_self _
        · simp [hst] at hf
  · intro x hx
    simp only [sqlInsertItem, List.mem_append, List.mem_singleton] at hx
    simp only [sqlInsertItem, List.countP_append]
    rcases hx with hx | rfl
    · have hzero :
          (if it.status = MemoryStatus.active
            then [ftsRowOfItem { it with rowid := db.nextRowid }] else []).countP
            (fun f => decide (f.rowid = x.rowid)) = 0 := by
        by_cases hst : it.status = MemoryStatus.active
        · simp [hst, ftsRowOfItem, Nat.ne_of_lt (hwf.rowidLt x hx), Ne.symm]
        · simp [hst]
      rw [hzero, Nat.add_zero]
      exact hinv x hx
    · have hzero : db.fts.countP
          (fun f => decide (f.rowid = db.nextRowid)) = 0 := by
        rw [List.countP_eq_zero]
        intro f hf
        simp only [decide_eq_true_eq]
        exact Nat.ne_of_lt (hwf.ftsRowidLt f hf)
      rw [hzero, Nat.zero_add]
      by_cases hst : it.status = MemoryStatus.active
      · simp [hst, ftsRowOfItem]
      · simp [hst]

theorem dbStep_delete_preserves (db : Db) (id ws : String)
    (hwf : DbWf db) (hinv : FtsInv db) :
    DbWf (sqlDeleteItem db id ws) ∧ FtsInv (sqlDeleteItem db id ws) := by
  by_cases hv : (db.items.filter (fun it => it.id = id && it.workspace = ws)).isEmpty
  · simp only [sqlDeleteItem, hv, if_pos rfl]
    exact ⟨hwf, hinv⟩
  · have hvictim : ∀ v ∈ db.items.filter (fun it => it.id = id && it.workspace = ws),
        v ∈ db.items ∧ v.id = id ∧ v.workspace = ws := by
      intro v hv'
      rcases List.mem_filter.mp hv' with ⟨h1, h2⟩
      simp only [Bool.and_eq_true, decide_eq_true_eq] at h2
      exact ⟨h1, h2⟩
    constructor
    · refine ⟨?_, ?_, ?_⟩
      · intro x hx
        simp only [sqlDeleteItem, if_neg hv] at hx ⊢
        exact hwf.rowidLt x (List.mem_of_mem_filter hx)
      · simp only [sqlDeleteItem, if_neg hv]
        exact List.Nodup.sublist ((List.filter_sublist _).map _) hwf.rowidNodup
      · intro f hf
        simp only [sqlDeleteItem, if_neg hv] at hf ⊢
        exact hwf.ftsRowidLt f (List.mem_of_mem_filter hf)
    · intro x hx
      simp only [sqlDeleteItem, if_neg hv] at hx ⊢
      have hx' : x ∈ db.items := List.mem_of_mem_filter hx
      have hxu : ¬(x.id = id) ∨ ¬(x.workspace = ws) := by
        rcases List.mem_filter.mp hx with ⟨_, h2⟩
        simpa using h2
      have hnot : ∀ v ∈ db.items.filter (fun it => it.id = id && it.workspace = ws),
          v.rowid ≠ x.rowid := by
        intro v hv' heq
        rcases hvictim v hv' with ⟨hvm, hvid, hvws⟩
        have hvx : v = x := item_eq_of_rowid db hwf.rowidNodup hvm hx' heq
        rcases hxu with h | h
        · exact h (hvx ▸ hvid)
        · exact h (hvx ▸ hvws)
      rw [countP_filter_of_imp]
      · exact hinv x hx'
      · intro f hpf
        simp only [decide_eq_true_eq] at hpf
        have hmem : f.rowid ∉
            (db.items.filter (fun it => it.id = id && it.workspace = ws)).map
              (fun it => it.rowid) := by
          intro hcont
          rcases List.mem_map.mp hcont with ⟨v, hv', hveq⟩
          exact hnot v hv' (by rw [hveq, hpf])
        simp [hmem]

theorem dbStep_update_preserves (db : Db) (sel : Item → Bool) (upd : Item → Item)
    (hwf : DbWf db) (hinv : FtsInv db) :
    DbWf (sqlUpdateItems db sel upd) ∧ FtsInv (sqlUpdateItems db sel upd) := by
  have hg : ∀ y : Item,
      ((if sel y then applyUpd upd y else y) : Item).rowid = y.rowid := by
    intro y
    by_cases hs : sel y = true
    · simp [hs, applyUpd_rowid]
    · simp [hs]
  have hmapRowid :
      ((db.items.map (fun it => if sel it then applyUpd upd it else it)).map
        (fun it => it.rowid)) = db.items.map (fun it => it.rowid) := by
    rw [List.map_map]
    exact List.map_congr_left (fun y _ => hg y)
  have hTsub : ∀ t ∈ db.items.filter (fun it => sel it &&
      (it.status = MemoryStatus.active || (applyUpd upd it).status = MemoryStatus.active)),
      t ∈ db.items := fun t ht => List.mem_of_mem_filter ht
  have hTnodup :
      ((db.items.filter (fun it => sel it &&
        (it.status = MemoryStatus.active ||
          (applyUpd upd it).status = MemoryStatus.active))).map
        (fun it => it.rowid)).Nodup :=
    List.Nodup.sublist ((List.filter_sublist _).map _) hwf.rowidNodup
  constructor
  · refine ⟨?_, ?_, ?_⟩
    · intro x hx
      simp only [sqlUpdateItems] at hx ⊢
      rcases List.mem_map.mp hx with ⟨y, hy, rfl⟩
      rw [hg y]
      exact hwf.rowidLt y hy
    · simp only [sqlUpdateItems]
      rw [hmapRowid]
      exact hwf.rowidNodup
    · intro f hf
      simp only [sqlUpdateItems, List.mem_append] at hf ⊢
      rcases hf with hf | hf
      · exact hwf.ftsRowidLt f (List.mem_of_mem_filter hf)
      · rcases List.mem_filterMap.mp hf with ⟨t, ht, hsome⟩
        simp only [updFtsRow] at hsome
        by_cases hst : (applyUpd upd t).status = MemoryStatus.active
        · simp only [hst, if_true, eq_self_iff_true, Option.some.injEq] at hsome
          rw [← hsome]
          simp only [ftsRowOfItem, applyUpd_rowid]
          exact hwf.rowidLt t (hTsub t ht)
        · simp [hst] at hsome
  · intro x hx
    simp only [sqlUpdateItems] at hx ⊢
    rcases List.mem_map.mp hx with ⟨y, hy, rfl⟩
    rw [List.countP_append]
    by_cases hyT : y ∈ db.items.filter (fun it => sel it &&
        (it.status = MemoryStatus.active ||
          (applyUpd upd it).status = MemoryStatus.active))
    · have hsel : sel y = true := by
        rcases List.mem_filter.mp hyT with ⟨_, h2⟩
        simp only [Bool.and_eq_true] at h2
        exact h2.1
      have hdead : ((if sel y then applyUpd upd y else y) : Item).rowid ∈
          (db.items.filter (fun it => sel it &&
            (it.status = MemoryStatus.active ||
              (applyUpd upd it).status = MemoryStatus.active))).map
            (fun it => it.rowid) := by
        rw [hg y]
        exact List.mem_map.mpr ⟨y, hyT, rfl⟩
      have h1 : (db.fts.filter (fun f =>
          !(((db.items.filter (fun it => sel it &&
            (it.status = MemoryStatus.active ||
              (applyUpd upd it).status = MemoryStatus.active))).map
            (fun it => it.rowid)).contains f.rowid))).countP
          (fun f => decide (f.rowid =
            ((if sel y then applyUpd upd y else y) : Item).rowid)) = 0 := by
        apply countP_filter_zero_of
        intro f hpf
        simp only [decide_eq_true_eq] at hpf
        rw [hpf]
        simp [hdead]
      rw [h1, Nat.zero_add]
      have h2 := countP_newFts_mem upd y _ hTnodup hyT
      rw [hg y, h2]
      simp [hsel]
    · have hrow_notin : y.rowid ∉
          (db.items.filter (fun it => sel it &&
            (it.status = MemoryStatus.active ||
              (applyUpd upd it).status = MemoryStatus.active))).map
            (fun it => it.rowid) := by
        intro hc
        rcases List.mem_map.mp hc with ⟨t, ht, hteq⟩
        have hty : t = y := item_eq_of_rowid db hwf.rowidNodup (hTsub t ht) hy hteq
        rw [hty] at ht
        exact hyT ht
      have h1 : (db.fts.filter (fun f =>
          !(((db.items.filter (fun it => sel it &&
            (it.status = MemoryStatus.active ||
              (applyUpd upd it).status = MemoryStatus.active))).map
            (fun it => it.rowid)).contains f.rowid))).countP
          (fun f => decide (f.rowid =
            ((if sel y then applyUpd upd y else y) : Item).rowid)) =
          db.fts.countP (fun f => decide (f.rowid =
            ((if sel y then applyUpd upd y else y) : Item).rowid)) := by
        apply countP_filter_of_imp
        intro f hpf
        simp only [decide_eq_true_eq] at hpf
        rw [hpf, hg y]
        simp [hrow_notin]
      have h2 : ((db.items.filter (fun it => sel it &&
            (it.status = MemoryStatus.active ||
              (applyUpd upd it).status = MemoryStatus.active))).filterMap
            (updFtsRow upd)).countP
          (fun f => decide (f.rowid =
            ((if sel y then applyUpd upd y else y) : Item).rowid)) = 0 := by
        rw [hg y]
        apply countP_newFts_zero
        intro t ht heq
        have hty : t = y := item_eq_of_rowid db hwf.rowidNodup (hTsub t ht) hy heq
        rw [hty] at ht
        exact hyT ht
      rw [h1, h2, Nat.add_zero]
      have hbase := hinv y hy
      by_cases hsel : sel y = true
      · have hcond : ¬(y.status = MemoryStatus.active ∨
            (applyUpd upd y).status = MemoryStatus.active) := by
          intro hc
          apply hyT
          apply List.mem_filter.mpr
          refine ⟨hy, ?_⟩
          simp only [hsel, Bool.true_and]
          rcases hc with hc | hc
          · simp [hc]
          · simp [hc]
        push_neg at hcond
        rw [hg y]
        have e1 : db.fts.countP (fun f => decide (f.rowid = y.rowid)) = 0 := by
          rw [hbase]
          simp [hcond.1]
        rw [e1]
        simp [hsel, hcond.2]
      · rw [hg y]
        simp only [hsel, if_false]
        exact hbase

theorem dbStep_preserves {a b : Db} (h : DbStep a b)
    (hwf : DbWf a) (hinv : FtsInv a) : DbWf b ∧ FtsInv b := by
  cases h with
  | insert it => exact dbStep_insert_preserves a it hwf hinv
  | update sel upd => exact dbStep_update_preserves a sel upd hwf hinv
  | delete id ws => exact dbStep_delete_preserves a id ws hwf hinv

theorem dbReach_preserves {a b : Db} (h : DbReach a b)
    (hwf : DbWf a) (hinv : FtsInv a) : DbWf b ∧ FtsInv b := by
  induction h with
  | refl => exact ⟨hwf, hinv⟩
  | step hr hs ih => exact dbStep_preserves hs ih.1 ih.2

/-- The empty metadata store. -/
def emptyDb : Db :=
  { items := [], chunks := [], embeds := [], fts := [], nextRowid := 0 }

/-- C4: FTS synchronisation invariant.  In every database state reachable
through the trigger-mediated row operations on `memory_items` (the inserts,
updates and deletes that save, ingest, delete, reindex and supersede are built
from), an item row with status `active` has exactly one corresponding row in
the full-text index (keyed by its rowid) and an item row with any other status
(pending, archived, deleted) has none; each single insert, update, or delete
preserves this via the triggers. -/
theorem c4_fts_sync_invariant {a b : Db} (hwf : DbWf a) (hinv : FtsInv a)
    (h : DbReach a b) : DbWf b ∧ FtsInv b :=
  dbReach_preserves h hwf hinv

/-- Example item for concrete instantiations. -/
def c4ItemEx : Item :=
  { id := "a1", rowid := 0, type := MemoryType.fact, title := "t", content := "c",
    summary := "", source := "s", scope := MemoryScope.workspace, workspace := "w",
    tags := [], importance := 1, status := MemoryStatus.active,
    supersedesId := none, contentHash := "h", createdAt := "2024-01-01",
    updatedAt := "2024-01-01" }

theorem c4_fts_sync_invariant_witness :
    DbWf (sqlUpdateItems (sqlInsertItem emptyDb c4ItemEx)
        (fun it => it.id = "a1") (fun it => { it with status := MemoryStatus.archived })) ∧
    FtsInv (sqlUpdateItems (sqlInsertItem emptyDb c4ItemEx)
        (fun it => it.id = "a1") (fun it => { it with status := MemoryStatus.archived })) := by
  have hwf : DbWf emptyDb := by
    refine ⟨?_, ?_, ?_⟩ <;> simp [emptyDb]
  have hinv : FtsInv emptyDb := by
    intro it hit
    simp [emptyDb] at hit
  exact c4_fts_sync_invariant hwf hinv
    (DbReach.step (DbReach.step (DbReach.refl _) (DbStep.insert _ _))
      (DbStep.update _ _ _))

theorem archivedScore_eq : archivedScore = 7 / 20 := by
  norm_num [archivedScore, mkRat, Rat.normalize]

/-- C7 counterexample: at `bm25 = -2` the BM25-normalised score is
`1/3 < 0.35`, so the claimed `1/(1+|bm25|) > 0.35` fails and an archived
fallback hit would sort above this BM25 hit. -/
theorem c7_counterexample : bm25Score (-2) < archivedScore := by
  simp only [bm25Score, archivedScore_eq]
  norm_num

/-- C7 (amended): every archived-fallback hit (both the lexical-layer fallback
and the recall-layer keyword pass) carries the fixed score `0.35`; every BM25
hit carries `1/(1+|bm25|)`, which lies in `(0,1]`; and the fixed `0.35` keeps
archived hits below exactly those BM25 hits with `|bm25| < 13/7` — for larger
BM25 magnitudes the archived hit sorts above the BM25 hit. -/
theorem c7_archived_score_ordering :
    (∀ (db : Db) (opts : SearchOpts) (tokens : List String) (h : SearchHit),
      h ∈ searchArchivedFallbackRows db opts tokens → h.score = archivedScore) ∧
    (∀ (o : Oracles) (db : Db) (q ws : String) (scopes : List MemoryScope)
        (types : List MemoryType) (topK : Nat) (hits : List SearchHit)
        (h : SearchHit),
      searchArchivedByKeywordE o db q ws scopes types topK = Except.ok hits →
      h ∈ hits → h.score = archivedScore) ∧
    (∀ b : ℚ, 0 < bm25Score b ∧ bm25Score b ≤ 1) ∧
    (∀ b : ℚ, archivedScore < bm25Score b ↔ |b| < 13 / 7) := by
  have habs : ∀ b : ℚ, (0:ℚ) < 1 + |b| := by
    intro b
    have := abs_nonneg b
    linarith
  refine ⟨?_, ?_, ?_, ?_⟩
  · intro db opts tokens h hmem
    rcases List.mem_map.mp hmem with ⟨m, _, rfl⟩
    rfl
  · intro o db q ws scopes types topK hits h hok hmem
    simp only [searchArchivedByKeywordE] at hok
    by_cases h1 : (tokenizeForArchivedLookup q).isEmpty
    · simp only [h1, if_true, eq_self_iff_true, Except.ok.injEq] at hok
      rw [← hok] at hmem
      cases hmem
    · by_cases h2 : o.archivedFails
      · simp [h1, h2] at hok
      · simp only [h1, h2, if_false, Bool.false_eq_true, Except.ok.injEq] at hok
        rw [← hok] at hmem
        rcases List.mem_map.mp hmem with ⟨m, _, rfl⟩
        rfl
  · intro b
    constructor
    · simp only [bm25Score]
      positivity
    · simp only [bm25Score]
      rw [div_le_one (habs b)]
      have := abs_nonneg b
      linarith
  · intro b
    simp only [bm25Score, archivedScore_eq]
    rw [lt_div_iff₀ (habs b)]
    constructor
    · intro h
      nlinarith [abs_nonneg b]
    · intro h
      nlinarith [abs_nonneg b]

/-- Archived example item for concrete instantiations. -/
def c7ItemEx : Item :=
  { id := "a2", rowid := 1, type := MemoryType.fact, title := "foo", content := "moon",
    summary := "", source := "s", scope := MemoryScope.workspace, workspace := "w",
    tags := [], importance := 1, status := MemoryStatus.archived,
    supersedesId := none, contentHash := "h", createdAt := "2024-01-01",
    updatedAt := "2024-01-02" }

/-- Store holding only the archived example item. -/
def dbC7 : Db :=
  { items := [c7ItemEx], chunks := [], embeds := [], fts := [], nextRowid := 2 }

/-- Options for the archived fallback example. -/
def optsC7 : SearchOpts :=
  { query := "oo", workspace := "w", topK := 30, scopes := [], types := [],
    statuses := [MemoryStatus.active, MemoryStatus.archived] }

theorem c7_archived_score_ordering_witness :
    (archivedHitOfItem c7ItemEx ∈ searchArchivedFallbackRows dbC7 optsC7 ["oo"] ∧
      (archivedHitOfItem c7ItemEx).score = archivedScore) ∧
    (0 < bm25Score (-2) ∧ bm25Score (-2) ≤ 1) ∧
    (archivedScore < bm25Score (-2) ↔ |(-2 : ℚ)| < 13 / 7) := by
  have hmem : archivedHitOfItem c7ItemEx ∈ searchArchivedFallbackRows dbC7 optsC7 ["oo"] := by
    exact List.mem_singleton.mpr rfl
  exact ⟨⟨hmem, c7_archived_score_ordering.1 dbC7 optsC7 ["oo"] _ hmem⟩,
    c7_archived_score_ordering.2.2.1 (-2), c7_archived_score_ordering.2.2.2 (-2)⟩

/-- C8: fusion monotonicity.  With lexical list `[a, b]` and vector list `[a]`
(distinct ids) and the default fusion options, the fused list is exactly the
single hit `a`, tagged `hybrid`, with normalised score 1.0 — so `a` ranks at or
above `b` (here `b` is dropped by the `minScore` cutoff: its normalised score
is `40/183 < 0.25`), and the top fused result has score 1.0. -/
theorem c8_fusion_monotonicity (a b : SearchHit) (hab : a.id ≠ b.id) :
    rrfFusion [a, b] [a] defaultFusionOptions =
      [{ a with score := 1, source := HitSource.hybrid }] := by
  have htake2 : ([a, b] : List SearchHit).take 30 = [a, b] :=
    List.take_of_length_le (by norm_num)
  have htake1 : ([a] : List SearchHit).take 30 = [a] :=
    List.take_of_length_le (by norm_num)
  simp only [rrfFusion, defaultFusionOptions, rrfK, htake2, htake1, List.enum,
    List.enumFrom, List.foldl_cons, List.foldl_nil, rrfSetEntry, rrfMergeEntry,
    hab, if_false, if_true, Nat.cast_zero, Nat.cast_one, List.isEmpty, listMaxQ,
    List.map_cons, List.map_nil, List.filter, isortBy, insSorted]
  norm_num [hab, div_self, isortBy, insSorted]

/-- Example hits for the fusion witness. -/
def c8HitA : SearchHit :=
  { id := "ha", title := "A", snippet := "", score := 1, source := HitSource.lex,
    scope := MemoryScope.workspace, type := MemoryType.fact,
    status := MemoryStatus.active }

/-- Second example hit for the fusion witness. -/
def c8HitB : SearchHit :=
  { id := "hb", title := "B", snippet := "", score := 1, source := HitSource.lex,
    scope := MemoryScope.workspace, type := MemoryType.fact,
    status := MemoryStatus.active }

theorem c8_fusion_monotonicity_witness :
    rrfFusion [c8HitA, c8HitB] [c8HitA] defaultFusionOptions =
      [{ c8HitA with score := 1, source := HitSource.hybrid }] :=
  c8_fusion_monotonicity c8HitA c8HitB (by decide)

/-- A benign concrete oracle assignment for witnesses: no store failures, an
echoing batch embedder, no break points, identity hash. -/
def oracleEx : Oracles :=
  { ftsMatch := fun _ _ => false, bm25 := fun _ _ => 0,
    ftsSnippet := fun _ _ => "", ftsFails := false, archivedFails := false,
    embed := fun _ => Except.ok [], vecQuery := fun _ _ _ => Except.ok [],
    hydrateFails := false,
    embedBatch := fun reqs => Except.ok (reqs.map (fun r => (r.1, []))),
    vecInsertFails := fun _ => false, vecDeleteFails := fun _ => false,
    finalizeFails := false, tokenCount := fun s => s.length,
    breakPoints := fun _ => [], hashContent := fun s => s, embedModel := "m",
    freshId := "mem-new", now := "2024-02-02" }

theorem bestBreakPoint_mem (te mc : Nat) (b : BreakPoint) (bs : ℚ)
    (l : List BreakPoint) :
    bestBreakPoint te mc b bs l = b ∨ bestBreakPoint te mc b bs l ∈ l := by
  induction l generalizing b bs with
  | nil => exact Or.inl rfl
  | cons p rest ih =>
    simp only [bestBreakPoint]
    by_cases hlt : bs < bpScore te mc p
    · simp only [hlt, if_true]
      rcases ih p (bpScore te mc p) with h | h
      · exact Or.inr (by rw [h]; exact List.mem_cons_self _ _)
      · exact Or.inr (List.mem_cons_of_mem _ h)
    · simp only [hlt, if_false]
      rcases ih b bs with h | h
      · exact Or.inl h
      · exact Or.inr (List.mem_cons_of_mem _ h)

/-- With a positive `maxTokens`, `findChunkEnd` always advances past the
current position — the pathological `chunkEnd ≤ pos` branch is unreachable with
the defaults. -/
theorem findChunkEnd_gt_pos (content : String) (pos maxTokens : Nat)
    (bps : List BreakPoint) (hm : 0 < maxTokens) (hp : pos < content.length) :
    pos < findChunkEnd content pos maxTokens bps := by
  rw [findChunkEnd]
  by_cases h1 : content.length ≤ min (pos + estimateCharsForTokens maxTokens) content.length
  · simp only [h1, if_true]
    exact hp
  · simp only [h1, if_false]
    have htarget : pos < min (pos + estimateCharsForTokens maxTokens) content.length := by
      apply lt_min
      · simp only [estimateCharsForTokens]
        omega
      · exact hp
    cases hcand : (bps.filter (fun bp =>
        pos < bp.position && bp.position ≤ min (pos + estimateCharsForTokens maxTokens) content.length)) with
    | nil => exact htarget
    | cons c cs =>
      have hmem : ∀ q ∈ c :: cs, pos < q.position := by
        intro q hq
        have hq2 : q ∈ bps.filter (fun bp =>
            pos < bp.position && bp.position ≤ min (pos + estimateCharsForTokens maxTokens) content.length) := by
          rw [hcand]
          exact hq
        rcases List.mem_filter.mp hq2 with ⟨_, hcond⟩
        simp only [Bool.and_eq_true, decide_eq_true_eq] at hcond
        exact hcond.1
      have hgoal : pos < (bestBreakPoint
          (min (pos + estimateCharsForTokens maxTokens) content.length)
          (estimateCharsForTokens maxTokens) c
          (bpScore (min (pos + estimateCharsForTokens maxTokens) content.length)
            (estimateCharsForTokens maxTokens) c) cs).position := by
        rcases bestBreakPoint_mem
            (min (pos + estimateCharsForTokens maxTokens) content.length)
            (estimateCharsForTokens maxTokens) c
            (bpScore (min (pos + estimateCharsForTokens maxTokens) content.length)
              (estimateCharsForTokens maxTokens) c) cs with h | h
        · rw [h]
          exact hmem c (List.mem_cons_self _ _)
        · exact hmem _ (List.mem_cons_of_mem _ h)
      exact hgoal

/-- The loop position strictly advances at every iteration. -/
theorem nextChunkPos_ge (opts : ChunkingOptions) (pos chunkEnd : Nat) :
    pos + 1 ≤ nextChunkPos opts pos chunkEnd :=
  Nat.le_max_right _ _

/-- The loop result does not depend on the fuel once the fuel exceeds the
remaining length: the chunker terminates on every input. -/
theorem chunkLoop_fuel_sufficient (o : Oracles) (opts : ChunkingOptions)
    (content : String) (bps : List BreakPoint) :
    ∀ f1 f2 pos seq, content.length - pos < f1 → content.length - pos < f2 →
      chunkLoop o opts content bps f1 pos seq = chunkLoop o opts content bps f2 pos seq := by
  intro f1
  induction f1 with
  | zero =>
    intro f2 pos seq h1 _
    exact absurd h1 (Nat.not_lt_zero _)
  | succ f ih =>
    intro f2 pos seq h1 h2
    cases f2 with
    | zero => exact absurd h2 (Nat.not_lt_zero _)
    | succ g =>
      simp only [chunkLoop]
      by_cases hp : pos < content.length
      · simp only [hp, if_true]
        by_cases hc : findChunkEnd content pos opts.maxTokens bps ≤ pos
        · simp [hc]
        · simp only [hc, if_false]
          congr 1
          by_cases hl : content.length ≤
              nextChunkPos opts pos (findChunkEnd content pos opts.maxTokens bps)
          · simp [hl]
          · simp only [hl, if_false]
            have hge := nextChunkPos_ge opts pos (findChunkEnd content pos opts.maxTokens bps)
            apply ih
            · omega
            · omega
      · simp [hp]

/-- Behaviour of the safety branch: when an iteration produces
`chunkEnd ≤ pos`, the loop stops; it emits the trailing remainder as a final
chunk only when more than 100 characters remain before the end of the content
and the trimmed remainder is nonempty — otherwise it stops without emitting
anything. -/
theorem chunkLoop_pathological (o : Oracles) (opts : ChunkingOptions)
    (content : String) (bps : List BreakPoint) (fuel pos seq : Nat)
    (hp : pos < content.length)
    (hc : findChunkEnd content pos opts.maxTokens bps ≤ pos) :
    chunkLoop o opts content bps (fuel + 1) pos seq =
      (if content.length ≤ pos + 100 then []
       else
        if 0 < (trimStr (sliceStr content pos content.length)).length then
          [{ seq := seq, pos := pos,
             tokenCount := o.tokenCount (trimStr (sliceStr content pos content.length)),
             text := trimStr (sliceStr content pos content.length) }]
        else []) := by
  simp only [chunkLoop, hp, if_true, hc]
  by_cases hf : content.length ≤ pos + 100
  · have hmn : content.length ≤ min (pos + 100) content.length :=
      le_min hf (le_refl _)
    simp [hmn, hf]
  · have hlt : pos + 100 < content.length := Nat.lt_of_not_le hf
    have hmn : ¬(content.length ≤ min (pos + 100) content.length) := by
      rw [min_eq_left (le_of_lt hlt)]
      exact hf
    simp [hmn, hf]

/-- Options with `maxTokens := 0`, which make `findChunkEnd` return the current
position and so reach the safety branch. -/
def c9PathOpts : ChunkingOptions := { maxTokens := 0, overlapTokens := 0 }

/-- C9 counterexample: with `maxTokens := 0` on `"hello world"` (11 characters,
no break points — as the regex pre-scan of a text without newlines yields),
the very first iteration produces `chunk_end = 0 ≤ pos = 0`, yet `chunkDocument`
returns no chunks at all: the trailing remainder — the whole nonblank content —
is NOT emitted as a final chunk, because the force-progress branch breaks
without emitting whenever at most 100 characters remain. -/
theorem c9_counterexample :
    findChunkEnd "hello world" 0 c9PathOpts.maxTokens [] ≤ 0 ∧
    trimStr "hello world" ≠ "" ∧
    chunkDocument oracleEx c9PathOpts "hello world" = [] :=
  ⟨by decide, by decide, by decide⟩

/-- C9 (amended): `chunkDocument` terminates for every input because each loop
iteration advances the position by at least one character (the loop result is
fuel-independent once the fuel exceeds the remaining length); empty or
whitespace-only content yields zero chunks; with the default options no
iteration can produce a chunk end at or before the current position; and when
an iteration does produce a chunk end at or before the current position (only
possible with non-default options), the loop stops, emitting the trailing
remainder as the final chunk only when more than 100 characters remain before
the end and the trimmed remainder is nonempty — otherwise it stops without
emitting it. -/
theorem c9_chunker_progress :
    (∀ (o : Oracles) (opts : ChunkingOptions) (content : String),
      trimStr content = "" → chunkDocument o opts content = []) ∧
    (∀ (o : Oracles) (opts : ChunkingOptions) (content : String)
        (bps : List BreakPoint) (f1 f2 pos seq : Nat),
      content.length - pos < f1 → content.length - pos < f2 →
      chunkLoop o opts content bps f1 pos seq = chunkLoop o opts content bps f2 pos seq) ∧
    (∀ (opts : ChunkingOptions) (pos chunkEnd : Nat),
      pos + 1 ≤ nextChunkPos opts pos chunkEnd) ∧
    (∀ (content : String) (pos : Nat) (bps : List BreakPoint),
      pos < content.length →
      pos < findChunkEnd content pos defaultChunkingOptions.maxTokens bps) ∧
    (∀ (o : Oracles) (opts : ChunkingOptions) (content : String)
        (bps : List BreakPoint) (fuel pos seq : Nat),
      pos < content.length →
      findChunkEnd content pos opts.maxTokens bps ≤ pos →
      chunkLoop o opts content bps (fuel + 1) pos seq =
        (if content.length ≤ pos + 100 then []
         else
          if 0 < (trimStr (sliceStr content pos content.length)).length then
            [{ seq := seq, pos := pos,
               tokenCount := o.tokenCount (trimStr (sliceStr content pos content.length)),
               text := trimStr (sliceStr content pos content.length) }]
          else [])) := by
  refine ⟨?_, ?_, ?_, ?_, ?_⟩
  · intro o opts content h
    simp [chunkDocument, h]
  · intro o opts content bps f1 f2 pos seq h1 h2
    exact chunkLoop_fuel_sufficient o opts content bps f1 f2 pos seq h1 h2
  · intro opts pos chunkEnd
    exact nextChunkPos_ge opts pos chunkEnd
  · intro content pos bps hp
    exact findChunkEnd_gt_pos content pos defaultChunkingOptions.maxTokens bps (by decide) hp
  · intro o opts content bps fuel pos seq hp hc
    exact chunkLoop_pathological o opts content bps fuel pos seq hp hc

theorem c9_chunker_progress_witness :
    chunkDocument oracleEx defaultChunkingOptions "  " = [] ∧
    chunkLoop oracleEx defaultChunkingOptions "ab" [] 3 0 0 =
      chunkLoop oracleEx defaultChunkingOptions "ab" [] 7 0 0 ∧
    0 + 1 ≤ nextChunkPos defaultChunkingOptions 0 1 ∧
    0 < findChunkEnd "ab" 0 defaultChunkingOptions.maxTokens [] ∧
    chunkLoop oracleEx c9PathOpts "hello world" [] (4 + 1) 0 0 =
      (if ("hello world" : String).length ≤ 0 + 100 then []
       else
        if 0 < (trimStr (sliceStr "hello world" 0 ("hello world" : String).length)).length then
          [{ seq := 0, pos := 0,
             tokenCount := oracleEx.tokenCount
               (trimStr (sliceStr "hello world" 0 ("hello world" : String).length)),
             text := trimStr (sliceStr "hello world" 0 ("hello world" : String).length) }]
        else []) :=
  ⟨c9_chunker_progress.1 oracleEx defaultChunkingOptions "  " (by decide),
   c9_chunker_progress.2.1 oracleEx defaultChunkingOptions "ab" [] 3 7 0 0
     (by decide) (by decide),
   c9_chunker_progress.2.2.1 defaultChunkingOptions 0 1,
   c9_chunker_progress.2.2.2.1 "ab" 0 [] (by decide),
   c9_chunker_progress.2.2.2.2 oracleEx c9PathOpts "hello world" [] 4 0 0
     (by decide) (by decide)⟩

theorem mem_trimLeftChars (l : List Char) : ∀ c ∈ trimLeftChars l, c ∈ l := by
  induction l with
  | nil => intro c hc; cases hc
  | cons a as ih =>
    intro c hc
    simp only [trimLeftChars] at hc
    by_cases ha : isJsSpace a = true
    · simp only [ha, if_true] at hc
      exact List.mem_cons_of_mem _ (ih c hc)
    · simp only [ha, if_false] at hc
      exact hc

theorem mem_trimChars (l : List Char) : ∀ c ∈ trimChars l, c ∈ l := by
  intro c hc
  simp only [trimChars] at hc
  rw [List.mem_reverse] at hc
  have h1 := mem_trimLeftChars _ _ hc
  rw [List.mem_reverse] at h1
  exact mem_trimLeftChars _ _ h1

theorem splitRuns_chars (p : Char → Bool) (l : List Char) :
    ∀ piece ∈ splitRuns p l, ∀ c ∈ piece, p c = false := by
  induction l with
  | nil =>
    intro piece hp c hc
    simp only [splitRuns, List.mem_singleton] at hp
    rw [hp] at hc
    cases hc
  | cons a as ih =>
    intro piece hp c hc
    simp only [splitRuns] at hp
    split at hp
    · rcases List.mem_cons.mp hp with rfl | hp
      · cases hc
      · exact ih piece hp c hc
    · rename_i ha
      have haf : p a = false := by
        cases hv : p a
        · rfl
        · exact absurd hv ha
      split at hp
      · rename_i hr
        simp only [List.mem_singleton] at hp
        rw [hp] at hc
        rcases List.mem_singleton.mp hc with rfl
        exact haf
      · rename_i t ts hr
        rcases List.mem_cons.mp hp with rfl | hp
        · rcases List.mem_cons.mp hc with rfl | hc2
          · exact haf
          · refine ih t ?_ c hc2
            rw [hr]
            exact List.mem_cons_self _ _
        · refine ih piece ?_ c hc
          rw [hr]
          exact List.mem_cons_of_mem _ hp

theorem tokenizePipeline_minLen (cap : Nat) (input : String) :
    ∀ t ∈ tokenizePipeline cap input, 2 ≤ t.length := by
  intro t ht
  have h1 := List.mem_of_mem_take ht
  rcases List.mem_filter.mp h1 with ⟨_, h2⟩
  simpa using h2

theorem tokenizePipeline_maxCount (cap : Nat) (input : String) :
    (tokenizePipeline cap input).length ≤ cap := by
  simp only [tokenizePipeline]
  rw [List.length_take]
  exact min_le_left _ _

theorem tokenizePipeline_wordChars (cap : Nat) (input : String) :
    ∀ t ∈ tokenizePipeline cap input, ∀ c ∈ t.toList, isWordChar c = true := by
  intro t ht c hc
  have h1 := List.mem_of_mem_take ht
  have h2 := List.mem_of_mem_filter h1
  rcases List.mem_map.mp h2 with ⟨piece, hpiece, rfl⟩
  simp only [trimStr, String.toList] at hc
  have h3 : c ∈ (String.mk piece).toList := mem_trimChars _ _ hc
  simp only [String.toList] at h3
  have h4 := splitRuns_chars (fun ch => !isWordChar ch) _ piece hpiece c h3
  simpa using h4

theorem searchArchivedFallbackE_ok (o : Oracles) (db : Db) (opts : SearchOpts)
    (tokens : List String) (haf : o.archivedFails = false) (htok : tokens ≠ []) :
    searchArchivedFallbackE o db opts tokens =
      Except.ok
        (if opts.statuses.contains MemoryStatus.archived then
          (searchArchivedFallbackRows db opts tokens, [LexTrace.likeArchived tokens])
        else ([], [])) := by
  have hie : tokens.isEmpty = false := by
    simpa [List.isEmpty_iff] using htok
  simp only [searchArchivedFallbackE, hie, haf]
  by_cases hc : MemoryStatus.archived ∈ opts.statuses
  · simp [hc]
  · simp [hc]

/-- C6: lexical AND-then-OR control flow and tokeniser guarantees.  Tokens are
at least 2 characters, at most 12 of them, made of word characters only; zero
tokens short-circuit to an empty result with no store query; otherwise the
strict AND pass always runs first, the relaxed OR pass runs exactly when the
strict pass came back empty AND more than one token remains (in particular a
single token never triggers OR), and the archived LIKE fallback runs exactly
when archived status was requested (the issued-query trace witnesses this
control flow). -/
theorem c6_lexical_and_then_or (o : Oracles) (db : Db) (opts : SearchOpts)
    (hff : o.ftsFails = false) (haf : o.archivedFails = false) :
    (∀ t ∈ tokenizeForFts opts.query, 2 ≤ t.length) ∧
    ((tokenizeForFts opts.query).length ≤ 12) ∧
    (∀ t ∈ tokenizeForFts opts.query, ∀ c ∈ t.toList, isWordChar c = true) ∧
    (tokenizeForFts opts.query = [] →
      searchLexicalCore o db opts = Except.ok ([], [])) ∧
    (trimStr opts.query ≠ "" → tokenizeForFts opts.query ≠ [] →
      (searchLexicalCore o db opts).map Prod.snd = Except.ok
        ([LexTrace.fts (buildMatchQuery (tokenizeForFts opts.query) true)] ++
         ((if executeSearch o db (buildMatchQuery (tokenizeForFts opts.query) true) opts = [] ∧
               1 < (tokenizeForFts opts.query).length
           then [LexTrace.fts (buildMatchQuery (tokenizeForFts opts.query) false)]
           else []) ++
          (if opts.statuses.contains MemoryStatus.archived then
             [LexTrace.likeArchived (tokenizeForFts opts.query)]
           else [])))) := by
  refine ⟨tokenizePipeline_minLen 12 opts.query, tokenizePipeline_maxCount 12 opts.query,
    tokenizePipeline_wordChars 12 opts.query, ?_, ?_⟩
  · intro h
    by_cases htr : trimStr opts.query = ""
    · simp [searchLexicalCore, htr]
    · simp [searchLexicalCore, htr, h]
  · intro htr htok
    have hie : (tokenizeForFts opts.query).isEmpty = false := by
      simpa [List.isEmpty_iff] using htok
    simp only [searchLexicalCore, htr, if_neg htr, hie, Bool.false_eq_true, if_false,
      hff, searchArchivedFallbackE_ok o db opts _ haf htok, Except.map]
    by_cases hstrict :
        executeSearch o db (buildMatchQuery (tokenizeForFts opts.query) true) opts = []
    · by_cases h1 : (tokenizeForFts opts.query).length = 1
      · have hn1 : ¬(1 < (tokenizeForFts opts.query).length) := by omega
        by_cases hc : MemoryStatus.archived ∈ opts.statuses
        · simp [hstrict, h1, hc, hn1]
        · simp [hstrict, h1, hc, hn1]
      · have hg1 : (executeSearch o db
            (buildMatchQuery (tokenizeForFts opts.query) true) opts = [] ∧
            1 < (tokenizeForFts opts.query).length) := by
          refine ⟨hstrict, ?_⟩
          have : 1 ≤ (tokenizeForFts opts.query).length := by
            cases h : tokenizeForFts opts.query with
            | nil => exact absurd h htok
            | cons a as => simp
          omega
        by_cases hc : MemoryStatus.archived ∈ opts.statuses
        · simp [hstrict, h1, hc, hg1]
        · simp [hstrict, h1, hc, hg1]
    · have hse : ¬(executeSearch o db
          (buildMatchQuery (tokenizeForFts opts.query) true) opts).isEmpty = true := by
        simpa [List.isEmpty_iff] using hstrict
      by_cases hc : MemoryStatus.archived ∈ opts.statuses
      · simp [hse, hstrict, hc]
      · simp [hse, hstrict, hc]

/-- Options for the lexical control-flow witness. -/
def optsC6 : SearchOpts :=
  { query := "ab cd", workspace := "w", topK := 30, scopes := [], types := [],
    statuses := [MemoryStatus.active] }

theorem c6_lexical_and_then_or_witness :
    oracleEx.ftsFails = false ∧ oracleEx.archivedFails = false ∧
    ((∀ t ∈ tokenizeForFts optsC6.query, 2 ≤ t.length) ∧
     ((tokenizeForFts optsC6.query).length ≤ 12) ∧
     (∀ t ∈ tokenizeForFts optsC6.query, ∀ c ∈ t.toList, isWordChar c = true) ∧
     (tokenizeForFts optsC6.query = [] →
       searchLexicalCore oracleEx emptyDb optsC6 = Except.ok ([], [])) ∧
     (trimStr optsC6.query ≠ "" → tokenizeForFts optsC6.query ≠ [] →
       (searchLexicalCore oracleEx emptyDb optsC6).map Prod.snd = Except.ok
         ([LexTrace.fts (buildMatchQuery (tokenizeForFts optsC6.query) true)] ++
          ((if executeSearch oracleEx emptyDb
                  (buildMatchQuery (tokenizeForFts optsC6.query) true) optsC6 = [] ∧
                1 < (tokenizeForFts optsC6.query).length
            then [LexTrace.fts (buildMatchQuery (tokenizeForFts optsC6.query) false)]
            else []) ++
           (if optsC6.statuses.contains MemoryStatus.archived then
              [LexTrace.likeArchived (tokenizeForFts optsC6.query)]
            else []))))) :=
  ⟨rfl, rfl, c6_lexical_and_then_or oracleEx emptyDb optsC6 rfl rfl⟩

/-- A hit is backed by a store item of the given workspace with the same id. -/
def HitFromWs (db : Db) (ws : String) (statuses : List MemoryStatus)
    (h : SearchHit) : Prop :=
  ∃ it ∈ db.items, it.id = h.id ∧ it.workspace = ws ∧ it.status ∈ statuses

theorem finishHits_mem {topK : Nat} {merged : List SearchHit} {h : SearchHit}
    (hh : h ∈ finishHits topK merged) : h ∈ merged :=
  mem_dedupeBy (mem_isortBy.mp (List.mem_of_mem_take hh))

theorem executeSearch_sound (o : Oracles) (db : Db) (matchQ : String)
    (opts : SearchOpts) (hws : opts.workspace ≠ "") (hst : opts.statuses ≠ []) :
    ∀ h ∈ executeSearch o db matchQ opts,
      HitFromWs db opts.workspace opts.statuses h := by
  intro h hh
  simp only [executeSearch, List.mem_map] at hh
  obtain ⟨p, hp, rfl⟩ := hh
  have hp' : p ∈ ftsJoinRows o db matchQ opts :=
    mem_isortBy.mp (List.mem_of_mem_take hp)
  simp only [ftsJoinRows, List.mem_flatMap] at hp'
  obtain ⟨f, hf, hpf⟩ := hp'
  split at hpf
  · simp only [List.mem_map, List.mem_filter] at hpf
    obtain ⟨m, ⟨hm, hcond⟩, rfl⟩ := hpf
    simp only [Bool.and_eq_true] at hcond
    have hfil := hcond.2
    simp only [itemMatchesFilter, Bool.and_eq_true, Bool.or_eq_true,
      decide_eq_true_eq] at hfil
    refine ⟨m, hm, rfl, ?_, ?_⟩
    · rcases hfil.1.1.1 with h0 | h0
      · exact absurd h0 hws
      · exact h0
    · rcases hfil.2 with h0 | h0
      · exact absurd (List.isEmpty_iff.mp h0) hst
      · simpa using h0
  · simp at hpf

theorem archivedRows_sound (db : Db) (opts : SearchOpts) (tokens : List String)
    (hws : opts.workspace ≠ "") (harch : MemoryStatus.archived ∈ opts.statuses) :
    ∀ h ∈ searchArchivedFallbackRows db opts tokens,
      HitFromWs db opts.workspace opts.statuses h := by
  intro h hh
  simp only [searchArchivedFallbackRows, List.mem_map] at hh
  obtain ⟨m, hm, rfl⟩ := hh
  have hm' := mem_isortBy.mp (List.mem_of_mem_take hm)
  obtain ⟨hmem, hcond⟩ := List.mem_filter.mp hm'
  simp only [archivedRowMatches, Bool.and_eq_true, Bool.or_eq_true,
    decide_eq_true_eq] at hcond
  refine ⟨m, hmem, rfl, ?_, ?_⟩
  · rcases hcond.1.1.1.2 with h0 | h0
    · exact absurd h0 hws
    · exact h0
  · rw [hcond.1.1.1.1]
    exact harch

theorem searchArchivedFallbackE_sub {o : Oracles} {db : Db} {opts : SearchOpts}
    {tokens : List String} {q : List SearchHit × List LexTrace}
    (hq : searchArchivedFallbackE o db opts tokens = Except.ok q) :
    ∀ h ∈ q.1, h ∈ searchArchivedFallbackRows db opts tokens ∧
      MemoryStatus.archived ∈ opts.statuses := by
  intro h hh
  simp only [searchArchivedFallbackE] at hq
  split at hq
  · cases hq; simp at hh
  · rename_i hguard
    split at hq
    · cases hq
    · cases hq
      refine ⟨hh, ?_⟩
      cases hcc : opts.statuses.contains MemoryStatus.archived with
      | false => exact absurd (by rw [hcc]; simp) hguard
      | true => simpa using hcc

theorem searchLexicalCore_sound {o : Oracles} {db : Db} {opts : SearchOpts}
    {hits : List SearchHit} {tr : List LexTrace}
    (hws : opts.workspace ≠ "") (hst : opts.statuses ≠ [])
    (hcore : searchLexicalCore o db opts = Except.ok (hits, tr)) :
    ∀ h ∈ hits, HitFromWs db opts.workspace opts.statuses h := by
  intro h hh
  simp only [searchLexicalCore] at hcore
  split at hcore
  · cases hcore; simp at hh
  · split at hcore
    · cases hcore; simp at hh
    · split at hcore
      · cases hcore
      · split at hcore
        · cases hfb : searchArchivedFallbackE o db opts (tokenizeForFts opts.query) with
          | error e => rw [hfb] at hcore; simp [Except.map] at hcore
          | ok q =>
            rw [hfb] at hcore
            simp only [Except.map, Except.ok.injEq, Prod.mk.injEq] at hcore
            obtain ⟨h1, h2⟩ := hcore
            subst h1
            rcases List.mem_append.mp (finishHits_mem hh) with hmem | hmem
            · exact executeSearch_sound o db _ opts hws hst h hmem
            · obtain ⟨hrow, harch⟩ := searchArchivedFallbackE_sub hfb h hmem
              exact archivedRows_sound db opts _ hws harch h hrow
        · split at hcore
          · cases hfb : searchArchivedFallbackE o db opts (tokenizeForFts opts.query) with
            | error e => rw [hfb] at hcore; simp [Except.map] at hcore
            | ok q =>
              rw [hfb] at hcore
              simp only [Except.map, Except.ok.injEq, Prod.mk.injEq] at hcore
              obtain ⟨h1, h2⟩ := hcore
              subst h1
              have hmem : h ∈ executeSearch o db
                  (buildMatchQuery (tokenizeForFts opts.query) true) opts ++ q.1 := by
                split at hh
                · exact hh
                · exact finishHits_mem hh
              rcases List.mem_append.mp hmem with hmem' | hmem'
              · exact executeSearch_sound o db _ opts hws hst h hmem'
              · obtain ⟨hrow, harch⟩ := searchArchivedFallbackE_sub hfb h hmem'
                exact archivedRows_sound db opts _ hws harch h hrow
          · cases hfb : searchArchivedFallbackE o db opts (tokenizeForFts opts.query) with
            | error e => rw [hfb] at hcore; simp [Except.map] at hcore
            | ok q =>
              rw [hfb] at hcore
              simp only [Except.map, Except.ok.injEq, Prod.mk.injEq] at hcore
              obtain ⟨h1, h2⟩ := hcore
              subst h1
              have hmem : h ∈ executeSearch o db
                  (buildMatchQuery (tokenizeForFts opts.query) false) opts ++ q.1 := by
                split at hh
                · exact hh
                · exact finishHits_mem hh
              rcases List.mem_append.mp hmem with hmem' | hmem'
              · exact executeSearch_sound o db _ opts hws hst h hmem'
              · obtain ⟨hrow, harch⟩ := searchArchivedFallbackE_sub hfb h hmem'
                exact archivedRows_sound db opts _ hws harch h hrow

theorem searchLexical_sound (o : Oracles) (db : Db) (opts : SearchOpts)
    (hws : opts.workspace ≠ "") (hst : opts.statuses ≠ []) :
    ∀ h ∈ searchLexical o db opts, HitFromWs db opts.workspace opts.statuses h := by
  intro h hh
  simp only [searchLexical] at hh
  split at hh
  · rename_i p hcore
    exact searchLexicalCore_sound hws hst (by rw [hcore]) h hh
  · simp at hh

theorem searchVectorCore_sound {o : Oracles} {db : Db} {opts : SearchOpts}
    {hits : List SearchHit} (hws : opts.workspace ≠ "")
    (hcore : searchVectorCore o db opts = Except.ok hits) :
    ∀ h ∈ hits, HitFromWs db opts.workspace opts.statuses h := by
  intro h hh
  simp only [searchVectorCore] at hcore
  split at hcore
  · cases hcore; simp at hh
  · split at hcore
    · cases hcore
    · split at hcore
      · cases hcore
      · split at hcore
        · cases hcore; simp at hh
        · split at hcore
          · cases hcore
          · cases hcore
            have hh' := List.reduceOption_mem_iff.mp hh
            obtain ⟨r, hr, hg⟩ := List.mem_map.mp hh'
            split at hg
            · cases hg
            · rename_i mem hfind
              cases hg
              have hmem2 := List.mem_of_find?_eq_some hfind
              have hpred := List.find?_some hfind
              simp only [decide_eq_true_eq] at hpred
              simp only [batchLookupMemories, List.mem_filter, Bool.and_eq_true,
                Bool.or_eq_true, decide_eq_true_eq] at hmem2
              refine ⟨mem, hmem2.1, hpred, ?_, ?_⟩
              · rcases hmem2.2.2 with h0 | h0
                · exact absurd h0 hws
                · exact h0
              · simpa using hmem2.2.1.2

theorem searchVector_sound (o : Oracles) (db : Db) (opts : SearchOpts)
    (hws : opts.workspace ≠ "") :
    ∀ h ∈ searchVector o db opts, HitFromWs db opts.workspace opts.statuses h := by
  intro h hh
  simp only [searchVector] at hh
  split at hh
  · rename_i p hcore
    exact searchVectorCore_sound hws hcore h hh
  · simp at hh

theorem snd_mem_of_mem_enumFrom {α : Type} {l : List α} :
    ∀ {n : Nat} {p : Nat × α}, p ∈ l.enumFrom n → p.2 ∈ l := by
  induction l with
  | nil => intro n p hp; simp [List.enumFrom] at hp
  | cons x xs ih =>
    intro n p hp
    simp only [List.enumFrom, List.mem_cons] at hp
    rcases hp with rfl | hp
    · exact List.mem_cons_self _ _
    · exact List.mem_cons_of_mem _ (ih hp)

theorem mem_rrfSetEntry_hit :
    ∀ (acc : List RrfEntry) (e r : RrfEntry), r ∈ rrfSetEntry acc e →
      r.hit = e.hit ∨ ∃ x ∈ acc, r.hit = x.hit := by
  intro acc
  induction acc with
  | nil =>
    intro e r hr
    simp only [rrfSetEntry, List.mem_singleton] at hr
    exact Or.inl (by rw [hr])
  | cons x xs ih =>
    intro e r hr
    simp only [rrfSetEntry] at hr
    split at hr
    · rcases List.mem_cons.mp hr with rfl | hr'
      · exact Or.inl rfl
      · exact Or.inr ⟨r, List.mem_cons_of_mem _ hr', rfl⟩
    · rcases List.mem_cons.mp hr with rfl | hr'
      · exact Or.inr ⟨r, List.mem_cons_self _ _, rfl⟩
      · rcases ih e r hr' with h1 | ⟨y, hy, hye⟩
        · exact Or.inl h1
        · exact Or.inr ⟨y, List.mem_cons_of_mem _ hy, hye⟩

theorem mem_rrfMergeEntry_hit :
    ∀ (acc : List RrfEntry) (e r : RrfEntry), r ∈ rrfMergeEntry acc e →
      r.hit = e.hit ∨ ∃ x ∈ acc, r.hit = x.hit := by
  intro acc
  induction acc with
  | nil =>
    intro e r hr
    simp only [rrfMergeEntry, List.mem_singleton] at hr
    exact Or.inl (by rw [hr])
  | cons x xs ih =>
    intro e r hr
    simp only [rrfMergeEntry] at hr
    split at hr
    · rcases List.mem_cons.mp hr with rfl | hr'
      · exact Or.inr ⟨x, List.mem_cons_self _ _, rfl⟩
      · exact Or.inr ⟨r, List.mem_cons_of_mem _ hr', rfl⟩
    · rcases List.mem_cons.mp hr with rfl | hr'
      · exact Or.inr ⟨r, List.mem_cons_self _ _, rfl⟩
      · rcases ih e r hr' with h1 | ⟨y, hy, hye⟩
        · exact Or.inl h1
        · exact Or.inr ⟨y, List.mem_cons_of_mem _ hy, hye⟩

theorem mem_foldl_rrf (step : List RrfEntry → RrfEntry → List RrfEntry)
    (hstep : ∀ acc e r, r ∈ step acc e → r.hit = e.hit ∨ ∃ x ∈ acc, r.hit = x.hit)
    (mk : Nat × SearchHit → RrfEntry) (hmk : ∀ p, (mk p).hit = p.2) :
    ∀ (l : List (Nat × SearchHit)) (init : List RrfEntry) (r : RrfEntry),
      r ∈ l.foldl (fun acc p => step acc (mk p)) init →
      (∃ x ∈ init, r.hit = x.hit) ∨ ∃ p ∈ l, r.hit = p.2 := by
  intro l
  induction l with
  | nil => intro init r hr; exact Or.inl ⟨r, hr, rfl⟩
  | cons p ps ih =>
    intro init r hr
    simp only [List.foldl_cons] at hr
    rcases ih (step init (mk p)) r hr with ⟨x, hx, hxe⟩ | ⟨q, hq, hqe⟩
    · rcases hstep init (mk p) x hx with h1 | ⟨y, hy, hye⟩
      · exact Or.inr ⟨p, List.mem_cons_self _ _, by rw [hxe, h1, hmk p]⟩
      · exact Or.inl ⟨y, hy, hxe.trans hye⟩
    · exact Or.inr ⟨q, List.mem_cons_of_mem _ hq, hqe⟩

theorem rrfFusion_sound (lex vec : List SearchHit) (fo : FusionOptions) :
    ∀ h ∈ rrfFusion lex vec fo, ∃ hp ∈ lex ++ vec, hp.id = h.id := by
  intro h hh
  simp only [rrfFusion] at hh
  split at hh
  · simp at hh
  · have hh' := mem_isortBy.mp hh
    obtain ⟨hh2, hmin⟩ := List.mem_filter.mp hh'
    obtain ⟨r, hr, rfl⟩ := List.mem_map.mp hh2
    rcases mem_foldl_rrf rrfMergeEntry mem_rrfMergeEntry_hit _ (fun p => rfl)
        _ _ r hr with ⟨x, hx, hxe⟩ | ⟨q, hq, hqe⟩
    · rcases mem_foldl_rrf rrfSetEntry mem_rrfSetEntry_hit _ (fun p => rfl)
          _ _ x hx with ⟨y, hy, hye⟩ | ⟨p2, hp2, hpe⟩
      · simp at hy
      · refine ⟨p2.2, List.mem_append_left _
          (List.mem_of_mem_take (snd_mem_of_mem_enumFrom hp2)), ?_⟩
        rw [← hpe, ← hxe]
    · refine ⟨q.2, List.mem_append_right _
        (List.mem_of_mem_take (snd_mem_of_mem_enumFrom hq)), ?_⟩
      rw [← hqe]

theorem searchArchivedByKeywordE_sound {o : Oracles} {db : Db} {query ws : String}
    {scopes : List MemoryScope} {types : List MemoryType} {topK : Nat}
    {hits : List SearchHit}
    (hq : searchArchivedByKeywordE o db query ws scopes types topK = Except.ok hits) :
    ∀ h ∈ hits, ∃ it ∈ db.items, it.id = h.id ∧ it.workspace = ws ∧
      it.status = MemoryStatus.archived := by
  intro h hh
  simp only [searchArchivedByKeywordE] at hq
  split at hq
  · cases hq; simp at hh
  · split at hq
    · cases hq
    · cases hq
      simp only [List.mem_map] at hh
      obtain ⟨m, hm, rfl⟩ := hh
      have hm' := mem_isortBy.mp (List.mem_of_mem_take hm)
      obtain ⟨hmem, hcond⟩ := List.mem_filter.mp hm'
      simp only [Bool.and_eq_true, Bool.or_eq_true, decide_eq_true_eq] at hcond
      exact ⟨m, hmem, rfl, hcond.1.1.1.1, hcond.1.1.1.2⟩

theorem mergeArchived_mem {results arch : List SearchHit} {h : SearchHit}
    (hh : h ∈ mergeArchived results arch) : h ∈ results ++ arch := by
  simp only [mergeArchived] at hh
  split at hh
  · exact List.mem_append_left _ hh
  · exact mem_dedupeBy (mem_isortBy.mp hh)

theorem queryModeResults_sound (o : Oracles) (db : Db) (input : QueryInput)
    (hws : queryWs input ≠ "") :
    ∀ h ∈ queryModeResults o db input,
      HitFromWs db (queryWs input)
        (queryStatuses (input.includeSuperseded.getD false)) h := by
  intro h hh
  have hws' : (queryOpts input).workspace ≠ "" := hws
  have hst' : (queryOpts input).statuses ≠ [] := by
    show queryStatuses (input.includeSuperseded.getD false) ≠ []
    cases input.includeSuperseded.getD false <;> simp [queryStatuses]
  simp only [queryModeResults] at hh
  split at hh
  · exact searchLexical_sound o db _ hws' hst' h hh
  · exact searchVector_sound o db _ hws' h hh
  · obtain ⟨hp, hpm, hpe⟩ := rrfFusion_sound _ _ _ h hh
    rcases List.mem_append.mp hpm with hm | hm
    · obtain ⟨it, hit, hid, hw, hsm⟩ := searchLexical_sound o db _ hws' hst' hp hm
      exact ⟨it, hit, hid.trans hpe, hw, hsm⟩
    · obtain ⟨it, hit, hid, hw, hsm⟩ := searchVector_sound o db _ hws' hp hm
      exact ⟨it, hit, hid.trans hpe, hw, hsm⟩

theorem queryMemories_sound {o : Oracles} {db : Db} {input : QueryInput}
    {out : List QueryHit}
    (hws : queryWs input ≠ "")
    (hq : queryMemories o db input = Except.ok out) :
    ∀ q ∈ out, ∃ it ∈ db.items, it.id = q.id ∧ it.workspace = queryWs input ∧
      it.status ∈ queryStatuses (input.includeSuperseded.getD false) := by
  intro q hqm
  simp only [queryMemories] at hq
  split at hq
  · cases hq
  · rename_i archivedHits harch
    cases hq
    simp only [List.mem_map] at hqm
    obtain ⟨h, hh, rfl⟩ := hqm
    have hmem := mergeArchived_mem (List.mem_of_mem_take hh)
    rcases List.mem_append.mp hmem with hm | hm
    · obtain ⟨it, hit, hid, hw, hsm⟩ := queryModeResults_sound o db input hws h hm
      exact ⟨it, hit, hid, hw, hsm⟩
    · split at harch
      · rename_i hinc
        obtain ⟨it, hit, hid, hw, hsa⟩ := searchArchivedByKeywordE_sound harch h hm
        refine ⟨it, hit, hid, hw, ?_⟩
        rw [hsa, hinc]
        simp [queryStatuses]
      · cases harch; simp at hm

theorem item_eq_of_id {db : Db} (hn : (db.items.map (fun it => it.id)).Nodup)
    {x y : Item} (hx : x ∈ db.items) (hy : y ∈ db.items) (h : x.id = y.id) :
    x = y :=
  List.inj_on_of_nodup_map hn hx hy h

/-- C5: workspace isolation.  Every hit returned by a successful recall against
a (non-empty) workspace is backed by a store item whose workspace column equals
that workspace; consequently, with the store's primary-key uniqueness of ids,
an item saved or ingested into a distinct workspace A is never returned — in
any mode (lexical, vector, or hybrid) and with any filters — by a recall
executed against workspace B. -/
theorem c5_workspace_isolation (o : Oracles) (db : Db) (wsA wsB query : String)
    (filters : RecallFilters) (out : List QueryHit)
    (hnodup : (db.items.map (fun it => it.id)).Nodup)
    (hB : wsB ≠ "")
    (hrec : recallMemories o db wsB query filters = Except.ok out) :
    (∀ q ∈ out, ∃ it ∈ db.items, it.id = q.id ∧ it.workspace = wsB) ∧
    (∀ it ∈ db.items, it.workspace = wsA → wsA ≠ wsB →
      ∀ q ∈ out, q.id ≠ it.id) := by
  have hmain : ∀ q ∈ out, ∃ it ∈ db.items, it.id = q.id ∧ it.workspace = wsB := by
    simp only [recallMemories] at hrec
    split at hrec
    · cases hrec
    · intro q hq
      obtain ⟨it, hit, h1, h2, -⟩ := queryMemories_sound (by exact hB) hrec q hq
      exact ⟨it, hit, h1, h2⟩
  refine ⟨hmain, ?_⟩
  intro it hit hwA hAB q hq hqid
  obtain ⟨it2, hit2, hid2, hw2⟩ := hmain q hq
  have heq : it2 = it := item_eq_of_id hnodup hit2 hit (hid2.trans hqid)
  apply hAB
  rw [← hwA, ← heq, hw2]

/-- Example item living in workspace `A` for the isolation witness. -/
def c5ItemA : Item :=
  { id := "a5", rowid := 1, type := MemoryType.fact, title := "hello",
    content := "hello there", summary := "", source := "s",
    scope := MemoryScope.workspace, workspace := "A", tags := [],
    importance := 1, status := MemoryStatus.active, supersedesId := none,
    contentHash := "h", createdAt := "2024-01-01", updatedAt := "2024-01-02" }

/-- Store holding only the workspace-`A` item. -/
def dbC5 : Db :=
  { items := [c5ItemA], chunks := [], embeds := [], fts := [], nextRowid := 2 }

theorem c5_workspace_isolation_witness :
    ((dbC5.items.map (fun it => it.id)).Nodup ∧ ("B" : String) ≠ "" ∧
      recallMemories oracleEx dbC5 "B" "hello" defaultRecallFilters =
        Except.ok []) ∧
    ((∀ q ∈ ([] : List QueryHit), ∃ it ∈ dbC5.items,
        it.id = q.id ∧ it.workspace = "B") ∧
     (∀ it ∈ dbC5.items, it.workspace = "A" → ("A" : String) ≠ "B" →
        ∀ q ∈ ([] : List QueryHit), q.id ≠ it.id)) :=
  ⟨⟨by decide, by decide, by rfl⟩,
    c5_workspace_isolation oracleEx dbC5 "A" "B" "hello" defaultRecallFilters []
      (by decide) (by decide) (by rfl)⟩

/-- Oracle whose archived-keyword LIKE query throws (a failing store read). -/
def oC10 : Oracles := { oracleEx with archivedFails := true }

/-- Oracle whose FTS MATCH query throws. -/
def oLexFailC10 : Oracles := { oracleEx with ftsFails := true }

/-- Oracle whose query embedding throws. -/
def oVecFailC10 : Oracles := { oracleEx with embed := fun _ => Except.error () }

/-- Recall filters with `includeSuperseded := true`. -/
def filtersC10 : RecallFilters :=
  { defaultRecallFilters with includeSuperseded := true }

theorem c10_counterexample :
    recallMemories oC10 emptyDb "w" "abc" filtersC10 =
      Except.error ErrCode.database := by rfl

/-- C10: retrieval-error containment, corrected.  Errors raised inside
`searchLexical` and `searchVector` are indeed swallowed by their catch-alls
(an erroring core always yields the empty hit list), but the consequence
claimed for `recall` fails: besides the blank-query validation error, recall
also propagates a `DATABASE` error when `includeSuperseded` is set and the
archived-keyword store read of `queryMemories` throws, because that pass is
outside any try/catch — these are exactly the failure modes of recall. -/
theorem c10_retrieval_error_containment :
    (∀ (o : Oracles) (db : Db) (opts : SearchOpts) (e : ErrCode),
      searchLexicalCore o db opts = Except.error e →
        searchLexical o db opts = []) ∧
    (∀ (o : Oracles) (db : Db) (opts : SearchOpts) (e : ErrCode),
      searchVectorCore o db opts = Except.error e →
        searchVector o db opts = []) ∧
    (∀ (o : Oracles) (db : Db) (ws query : String) (filters : RecallFilters)
        (e : ErrCode),
      recallMemories o db ws query filters = Except.error e →
        (e = ErrCode.validation ∧ trimStr query = "") ∨
        (e = ErrCode.database ∧ filters.includeSuperseded = true ∧
          o.archivedFails = true)) := by
  refine ⟨?_, ?_, ?_⟩
  · intro o db opts e he
    simp only [searchLexical, he]
  · intro o db opts e he
    simp only [searchVector, he]
  · intro o db ws query filters e hrec
    simp only [recallMemories] at hrec
    split at hrec
    · rename_i htr
      cases hrec
      exact Or.inl ⟨rfl, htr⟩
    · simp only [queryMemories] at hrec
      split at hrec
      · rename_i e' harch
        cases hrec
        split at harch
        · rename_i hinc
          simp only [searchArchivedByKeywordE] at harch
          split at harch
          · cases harch
          · split at harch
            · rename_i haf
              cases harch
              exact Or.inr ⟨rfl, hinc, haf⟩
            · cases harch
        · cases harch
      · cases hrec

theorem c10_retrieval_error_containment_witness :
    (searchLexicalCore oLexFailC10 emptyDb optsC6 = Except.error ErrCode.database ∧
      searchLexical oLexFailC10 emptyDb optsC6 = []) ∧
    (searchVectorCore oVecFailC10 emptyDb optsC6 = Except.error ErrCode.database ∧
      searchVector oVecFailC10 emptyDb optsC6 = []) ∧
    (recallMemories oC10 emptyDb "w" "abc" filtersC10 =
        Except.error ErrCode.database ∧
      ((ErrCode.database = ErrCode.validation ∧ trimStr "abc" = "") ∨
       (ErrCode.database = ErrCode.database ∧
         filtersC10.includeSuperseded = true ∧ oC10.archivedFails = true))) :=
  ⟨⟨by rfl, c10_retrieval_error_containment.1 oLexFailC10 emptyDb optsC6
      ErrCode.database (by rfl)⟩,
   ⟨by rfl, c10_retrieval_error_containment.2.1 oVecFailC10 emptyDb optsC6
      ErrCode.database (by rfl)⟩,
   ⟨by rfl, c10_retrieval_error_containment.2.2 oC10 emptyDb "w" "abc" filtersC10
      ErrCode.database (by rfl)⟩⟩

/-- The ids the spec prescribes for the embed request of one ingest batch:
`chunk_id = "<memory_id>_<seq>"` for every new chunk (the memory id is `doc.id`,
which `insertMemoryItem`/`updateMemoryItem` return). -/
def ingestSpecRequestedIds (batch : List IngestDoc) : List String :=
  batch.flatMap (fun d => d.chunks.map (fun c => mkChunkId d.docId c.seq))

/-- A one-chunk document entering the embed/store phase: random memory id `m0`,
content hash `h`. -/
def docC3 : IngestDoc :=
  { docId := "m0", contentHash := "h",
    chunks := [{ seq := 0, pos := 0, tokenCount := 1, text := "hello" }],
    existing := none }

/-- C3: ingestion embed-stage id contract — code bug.  The orchestrator
requests embeddings under `"<contentHash>_<seq>"` ids while the storing loop
looks vectors up (and writes chunk rows) under `"<memoryId>_<seq>"` ids, so the
two id spaces disagree whenever the random memory id differs from the content
hash: even when `embedBatch` echoes back every requested id, no vector is
inserted for the stored chunk (the `if (embedding)` lookup silently misses),
yet the chunk is still marked embedded; and when `embedBatch` returns nothing
at all, the batch still succeeds — no requested id is required to come back. -/
theorem c3_ingest_embed_id_contract :
    ingestBatch oracleEx [docC3] =
      Except.ok (["h_0"],
        [{ chunkRowIds := ["m0_0"], vectorInsertIds := [],
           embeddedMarkIds := ["m0_0"] }]) ∧
    (ingestRequestedIds [docC3] = ["h_0"] ∧
      ingestSpecRequestedIds [docC3] = ["m0_0"] ∧
      ingestRequestedIds [docC3] ≠ ingestSpecRequestedIds [docC3]) ∧
    ingestBatch { oracleEx with embedBatch := fun _ => Except.ok [] } [docC3] =
      Except.ok (["h_0"],
        [{ chunkRowIds := ["m0_0"], vectorInsertIds := [],
           embeddedMarkIds := ["m0_0"] }]) := by
  refine ⟨by rfl, ⟨by rfl, by rfl, by decide⟩, by rfl⟩

theorem mapM_option_mem {α β : Type} (f : α → Option β) :
    ∀ (l : List α) (res : List β), l.mapM f = some res →
      ∀ b ∈ res, ∃ a ∈ l, f a = some b := by
  intro l
  induction l with
  | nil =>
    intro res h b hb
    simp only [List.mapM_nil, Option.pure_def, Option.some.injEq] at h
    subst h
    simp at hb
  | cons a as ih =>
    intro res h b hb
    rw [List.mapM_cons] at h
    cases hfa : f a with
    | none => rw [hfa] at h; simp at h
    | some b0 =>
      rw [hfa] at h
      cases hrest : as.mapM f with
      | none => rw [hrest] at h; simp at h
      | some bs =>
        rw [hrest] at h
        simp only [Option.pure_def, Option.bind_eq_bind, Option.some_bind,
          Option.some.injEq] at h
        subst h
        rcases List.mem_cons.mp hb with rfl | hb'
        · exact ⟨a, List.mem_cons_self _ _, hfa⟩
        · obtain ⟨a', ha', hfa'⟩ := ih bs hrest b hb'
          exact ⟨a', List.mem_cons_of_mem _ ha', hfa'⟩

theorem prepareChunkEmbeddings_chunkIds {o : Oracles} {memoryId content : String}
    {ty : MemoryType} {sc : MemoryScope} {ws : String} {prepared : List PChunk}
    (h : prepareChunkEmbeddings o memoryId content ty sc ws = Except.ok prepared) :
    ∀ c ∈ prepared, ∃ seq : Nat, c.chunkId = mkChunkId memoryId seq := by
  intro c hc
  simp only [prepareChunkEmbeddings] at h
  split at h
  · cases h; simp at hc
  · split at h
    · cases h
    · split at h
      · cases h
      · rename_i embeddings heb prepared0 hmapM
        cases h
        obtain ⟨ch, hch, hfc⟩ := mapM_option_mem _ _ _ hmapM c hc
        obtain ⟨e, hfind, hge⟩ := Option.map_eq_some'.mp hfc
        exact ⟨ch.seq, by rw [← hge]⟩

theorem filter_insEmb (P : String → Bool) (acc : List EmbRow) (e : EmbRow)
    (he : P e.chunkId = true) :
    (insertOrReplaceEmb acc e).filter (fun x => !(P x.chunkId)) =
      acc.filter (fun x => !(P x.chunkId)) := by
  simp only [insertOrReplaceEmb, List.filter_append]
  have h2 : [e].filter (fun x => !(P x.chunkId)) = [] := by simp [he]
  rw [h2, List.append_nil, List.filter_filter]
  apply List.filter_congr
  intro x hx
  by_cases hp : P x.chunkId = true
  · simp [hp]
  · have hne : ¬(x.chunkId = e.chunkId) := fun hxe => hp (hxe ▸ he)
    simp [hp, hne]

theorem filter_foldl_insEmb {α : Type} (P : String → Bool) (g : α → EmbRow) :
    ∀ (cs : List α) (acc : List EmbRow),
      (∀ c ∈ cs, P (g c).chunkId = true) →
      ((cs.foldl (fun a c => insertOrReplaceEmb a (g c)) acc).filter
          (fun x => !(P x.chunkId))) =
        acc.filter (fun x => !(P x.chunkId)) := by
  intro cs
  induction cs with
  | nil => intro acc h; rfl
  | cons c cs ih =>
    intro acc h
    simp only [List.foldl_cons]
    rw [ih _ (fun d hd => h d (List.mem_cons_of_mem _ hd)),
      filter_insEmb P acc (g c) (h c (List.mem_cons_self _ _))]

theorem recallMemories_sound {o : Oracles} {db : Db} {ws query : String}
    {filters : RecallFilters} {out : List QueryHit}
    (hws : ws ≠ "") (h : recallMemories o db ws query filters = Except.ok out) :
    ∀ q ∈ out, ∃ it ∈ db.items, it.id = q.id ∧ it.workspace = ws ∧
      it.status ∈ queryStatuses filters.includeSuperseded := by
  simp only [recallMemories] at h
  split at h
  · cases h
  · refine fun q hq => queryMemories_sound ?_ h q hq
    exact hws

/-- The pending row as inserted (rowid assigned from the store counter). -/
def pendingRow (o : Oracles) (db : Db) (input : SaveInput) (id ws now : String)
    (sup : Option String) : Item :=
  { pendingItem input id ws (o.hashContent input.content) now sup with
    rowid := db.nextRowid }

theorem savePhase1_rollback (o : Oracles) (db : Db) (input : SaveInput)
    (id ws now : String) (sup : Option String) (prepared : List PChunk)
    (hcid : ∀ c ∈ prepared, ∃ seq : Nat, c.chunkId = mkChunkId id seq)
    (hfresh : ∀ it ∈ db.items, it.id ≠ id)
    (hfreshc : ∀ c ∈ db.chunks, c.memoryId ≠ id)
    (hfreshe : ∀ e ∈ db.embeds, ∀ seq : Nat, e.chunkId ≠ mkChunkId id seq)
    (hwfts : ∀ f ∈ db.fts, f.rowid < db.nextRowid) :
    sqlDeleteItem (savePhase1Db o db input id ws now sup prepared) id ws =
      { db with nextRowid := db.nextRowid + 1 } := by
  have hA : (savePhase1Db o db input id ws now sup prepared).items =
      db.items ++ [pendingRow o db input id ws now sup] := rfl
  have hB : (savePhase1Db o db input id ws now sup prepared).chunks =
      db.chunks ++ prepared.map (chunkRowOf id now) := rfl
  have hC : (savePhase1Db o db input id ws now sup prepared).embeds =
      prepared.foldl (fun acc c => insertOrReplaceEmb acc (embRowOf o now c))
        db.embeds := rfl
  have hD : (savePhase1Db o db input id ws now sup prepared).fts = db.fts := by
    have hst : (pendingItem input id ws (o.hashContent input.content) now
        sup).status = MemoryStatus.pending := rfl
    simp [savePhase1Db, sqlInsertItem, hst]
  have hE : (savePhase1Db o db input id ws now sup prepared).nextRowid =
      db.nextRowid + 1 := rfl
  have h1 : (db.items ++ [pendingRow o db input id ws now sup]).filter
      (fun it => it.id = id && it.workspace = ws) =
      [pendingRow o db input id ws now sup] := by
    rw [List.filter_append]
    have h1a : db.items.filter (fun it => it.id = id && it.workspace = ws) = [] := by
      apply List.filter_eq_nil_iff.mpr
      intro it hit
      simp [hfresh it hit]
    rw [h1a]
    simp [pendingRow, pendingItem]
  have h3 : (db.items ++ [pendingRow o db input id ws now sup]).filter
      (fun it => !(it.id = id && it.workspace = ws)) = db.items := by
    rw [List.filter_append]
    have h3a : db.items.filter (fun it => !(it.id = id && it.workspace = ws)) =
        db.items := by
      apply List.filter_eq_self.mpr
      intro it hit
      simp [hfresh it hit]
    have h3b : [pendingRow o db input id ws now sup].filter
        (fun it => !(it.id = id && it.workspace = ws)) = [] := by
      simp [pendingRow, pendingItem]
    rw [h3a, h3b, List.append_nil]
  have h4 : (db.chunks ++ prepared.map (chunkRowOf id now)).filter
      (fun c => !(c.memoryId = id)) = db.chunks := by
    rw [List.filter_append]
    have h4a : db.chunks.filter (fun c => !(c.memoryId = id)) = db.chunks := by
      apply List.filter_eq_self.mpr
      intro c hc
      simp [hfreshc c hc]
    have h4b : (prepared.map (chunkRowOf id now)).filter
        (fun c => !(c.memoryId = id)) = [] := by
      apply List.filter_eq_nil_iff.mpr
      intro c hc
      obtain ⟨c0, hc0, rfl⟩ := List.mem_map.mp hc
      simp [chunkRowOf]
    rw [h4a, h4b, List.append_nil]
  have h5 : ((db.chunks ++ prepared.map (chunkRowOf id now)).filter
      (fun c => c.memoryId = id)).map (fun c => c.id) =
      prepared.map (fun c => c.chunkId) := by
    rw [List.filter_append]
    have h5a : db.chunks.filter (fun c => c.memoryId = id) = [] := by
      apply List.filter_eq_nil_iff.mpr
      intro c hc
      simp [hfreshc c hc]
    have h5b : (prepared.map (chunkRowOf id now)).filter
        (fun c => c.memoryId = id) = prepared.map (chunkRowOf id now) := by
      apply List.filter_eq_self.mpr
      intro c hc
      obtain ⟨c0, hc0, rfl⟩ := List.mem_map.mp hc
      simp [chunkRowOf]
    rw [h5a, h5b, List.nil_append, List.map_map]
    rfl
  have h6 : (prepared.foldl (fun acc c => insertOrReplaceEmb acc (embRowOf o now c))
      db.embeds).filter
      (fun e => !((prepared.map (fun c => c.chunkId)).contains e.chunkId)) =
      db.embeds := by
    rw [filter_foldl_insEmb (fun sid => (prepared.map (fun c => c.chunkId)).contains sid)
      (embRowOf o now) prepared db.embeds
      (fun c hc => List.elem_eq_true_of_mem (List.mem_map_of_mem _ hc))]
    apply List.filter_eq_self.mpr
    intro e he
    have hnm : e.chunkId ∉ prepared.map (fun c => c.chunkId) := by
      intro hmem
      obtain ⟨c0, hc0, hce⟩ := List.mem_map.mp hmem
      obtain ⟨sq, hsq⟩ := hcid c0 hc0
      exact hfreshe e he sq (by rw [← hce, hsq])
    simpa using hnm
  have h7 : db.fts.filter (fun f =>
      !(([pendingRow o db input id ws now sup].map (fun it => it.rowid)).contains
        f.rowid)) = db.fts := by
    apply List.filter_eq_self.mpr
    intro f hf
    have hne : f.rowid ≠ db.nextRowid := Nat.ne_of_lt (hwfts f hf)
    simp [pendingRow, pendingItem, hne]
  simp only [sqlDeleteItem, hA, hB, hC, hD, hE, h1]
  rw [if_neg (by simp)]
  rw [h3, h4, h5, h6, h7]

/-- C1: save atomicity on vector failure.  When a phase-2 vector insert throws,
`save` surfaces `DATABASE` and the compensating delete of the pending row (with
its cascaded chunk and embedding rows) restores the metadata store exactly —
items, chunks, embeddings and FTS as before the call (in particular the
supersede target, if any, is untouched) — so that afterwards `get` of the new
id finds nothing and no recall (in any workspace, with any filters) can return
the new id.  The freshness hypotheses say the generated id is genuinely fresh
for the store, and the rowid bound is the store well-formedness C4 maintains. -/
theorem c1_save_atomicity (o : Oracles) (ws : String) (s : EngineState)
    (input : SaveInput) (prepared : List PChunk)
    (hdisp : input.supersedesId = none ∨
      ∃ sid, input.supersedesId = some sid ∧
        getMemoryItemStatus s.db ws sid = some MemoryStatus.active)
    (hprep : prepareChunkEmbeddings o o.freshId input.content input.type
      input.scope ws = Except.ok prepared)
    (hfail : (insertVectorsLoop o prepared).2 = true)
    (hfresh : ∀ it ∈ s.db.items, it.id ≠ o.freshId)
    (hfreshc : ∀ c ∈ s.db.chunks, c.memoryId ≠ o.freshId)
    (hfreshe : ∀ e ∈ s.db.embeds, ∀ seq : Nat, e.chunkId ≠ mkChunkId o.freshId seq)
    (hwfts : ∀ f ∈ s.db.fts, f.rowid < s.db.nextRowid)
    (hid : o.freshId ≠ "") :
    (save o ws s input).2 = Except.error ErrCode.database ∧
    (save o ws s input).1.db.items = s.db.items ∧
    (save o ws s input).1.db.chunks = s.db.chunks ∧
    (save o ws s input).1.db.embeds = s.db.embeds ∧
    (save o ws s input).1.db.fts = s.db.fts ∧
    getMemory (save o ws s input).1.db ws o.freshId = Except.ok none ∧
    (∀ (ws' q : String) (filters : RecallFilters) (out : List QueryHit),
      ws' ≠ "" →
      recallMemories o (save o ws s input).1.db ws' q filters = Except.ok out →
      ∀ h ∈ out, h.id ≠ o.freshId) := by
  have hsave : save o ws s input =
      saveAfterChecks o ws s input o.freshId o.now input.supersedesId := by
    rcases hdisp with hnone | ⟨sid, hsid, hst⟩
    · simp [save, hnone]
    · simp [save, hsid, hst]
  obtain ⟨ins, hins⟩ : ∃ ins, insertVectorsLoop o prepared = (ins, true) :=
    ⟨(insertVectorsLoop o prepared).1, by rw [← hfail]⟩
  have hcid := prepareChunkEmbeddings_chunkIds hprep
  have hroll := savePhase1_rollback o s.db input o.freshId ws o.now
    input.supersedesId prepared hcid hfresh hfreshc hfreshe hwfts
  have hred : save o ws s input =
      ({ db := { s.db with nextRowid := s.db.nextRowid + 1 },
         vectors := s.vectors ++ ins },
       Except.error ErrCode.database) := by
    rw [hsave]
    simp only [saveAfterChecks, hprep, hins, hroll]
  refine ⟨by rw [hred], by rw [hred], by rw [hred], by rw [hred], by rw [hred],
    ?_, ?_⟩
  · rw [hred]
    simp only [getMemory]
    rw [if_neg hid]
    have hfind : ({ s.db with nextRowid := s.db.nextRowid + 1 } : Db).items.find?
        (fun m => m.id = o.freshId && m.workspace = ws) = none := by
      apply List.find?_eq_none.mpr
      intro it hit
      simp [hfresh it hit]
    rw [hfind]
  · intro ws' q filters out hws' hrec h hh heq
    rw [hred] at hrec
    obtain ⟨it, hit, hid2, -⟩ := recallMemories_sound hws' hrec h hh
    exact hfresh it hit (hid2.trans heq)

/-- Oracle whose every vector-collection insert throws. -/
def oC1 : Oracles := { oracleEx with vecInsertFails := fun _ => true }

/-- Minimal one-chunk save input. -/
def inputC1 : SaveInput :=
  { type := MemoryType.fact, title := "t", content := "h", summary := "",
    source := "s", scope := MemoryScope.workspace, tags := [], importance := 1,
    supersedesId := none }

/-- Empty engine state. -/
def sC1 : EngineState := { db := emptyDb, vectors := [] }

/-- The prepared chunk list for `inputC1` under `oC1`. -/
def preparedC1 : List PChunk :=
  [{ chunkId := "mem-new_0", seq := 0, pos := 0, tokenCount := 1, text := "h",
     embedding := [],
     meta := { workspace := "w", scope := MemoryScope.workspace,
               type := MemoryType.fact, status := MemoryStatus.active } }]

theorem c1_save_atomicity_witness :
    inputC1.supersedesId = none ∧
    prepareChunkEmbeddings oC1 oC1.freshId inputC1.content inputC1.type
      inputC1.scope "w" = Except.ok preparedC1 ∧
    (insertVectorsLoop oC1 preparedC1).2 = true ∧
    (save oC1 "w" sC1 inputC1).2 = Except.error ErrCode.database ∧
    (save oC1 "w" sC1 inputC1).1.db.items = sC1.db.items ∧
    getMemory (save oC1 "w" sC1 inputC1).1.db "w" "mem-new" = Except.ok none := by
  have h := c1_save_atomicity oC1 "w" sC1 inputC1 preparedC1 (Or.inl rfl)
    (by rfl) (by rfl) (by decide) (by decide) (by simp [sC1, emptyDb])
    (by decide) (by decide)
  exact ⟨rfl, by rfl, by rfl, h.1, h.2.1, h.2.2.2.2.2.1⟩

theorem find?_append_left {α : Type} (p : α → Bool) (l₂ : List α) :
    ∀ (l₁ : List α) {a : α}, l₁.find? p = some a → (l₁ ++ l₂).find? p = some a := by
  intro l₁
  induction l₁ with
  | nil => intro a h; simp [List.find?] at h
  | cons x xs ih =>
    intro a h
    cases hx : p x with
    | true =>
      rw [List.find?_cons_of_pos _ hx] at h
      rw [List.cons_append, List.find?_cons_of_pos _ hx]
      exact h
    | false =>
      rw [List.find?_cons_of_neg _ (by simp [hx])] at h
      rw [List.cons_append, List.find?_cons_of_neg _ (by simp [hx])]
      exact ih h

theorem find?_append_none {α : Type} (p : α → Bool) (l₂ : List α) :
    ∀ (l₁ : List α), l₁.find? p = none → (l₁ ++ l₂).find? p = l₂.find? p := by
  intro l₁
  induction l₁ with
  | nil => intro h; rfl
  | cons x xs ih =>
    intro h
    cases hx : p x with
    | true =>
      rw [List.find?_cons_of_pos _ hx] at h
      cases h
    | false =>
      rw [List.find?_cons_of_neg _ (by simp [hx])] at h
      rw [List.cons_append, List.find?_cons_of_neg _ (by simp [hx])]
      exact ih h

theorem find?_map_pred {α : Type} (g : α → α) (p : α → Bool)
    (hpg : ∀ x, p (g x) = p x) (l : List α) :
    (l.map g).find? p = (l.find? p).map g := by
  rw [List.find?_map]
  have : (p ∘ g) = p := funext hpg
  rw [this]

theorem deleteVectorsByChunkIds_nofail (o : Oracles)
    (hdel : ∀ cid, o.vecDeleteFails cid = false) :
    ∀ (l : List String) (v : List VecDoc),
      (deleteVectorsByChunkIds o v l).2 = false := by
  intro l
  induction l with
  | nil => intro v; rfl
  | cons c cs ih =>
    intro v
    simp only [deleteVectorsByChunkIds, hdel c, Bool.false_eq_true, if_false]
    exact ih _

theorem deleteVectorsForMemory_nofail (o : Oracles) (db : Db)
    (hdel : ∀ cid, o.vecDeleteFails cid = false) (v : List VecDoc)
    (mid : String) : (deleteVectorsForMemory o db v mid).2 = false := by
  simp only [deleteVectorsForMemory]
  split
  · rfl
  · exact deleteVectorsByChunkIds_nofail o hdel _ _

theorem rrfFusion_single (a : SearchHit) (ms : ℚ) (hms : ms ≤ 1) :
    rrfFusion [a] []
      { defaultFusionOptions with candidateLimit := 30, minScore := ms } =
      [{ a with score := 1, source := HitSource.lex }] := by
  have htake1 : ([a] : List SearchHit).take 30 = [a] :=
    List.take_of_length_le (by norm_num)
  simp only [rrfFusion, defaultFusionOptions, rrfK, htake1, List.take_nil,
    List.enum, List.enumFrom, List.foldl_cons, List.foldl_nil, rrfSetEntry,
    Nat.cast_zero, List.isEmpty, listMaxQ, List.map_cons, List.map_nil,
    List.filter, isortBy, insSorted]
  norm_num [div_self, hms]
  rfl

/-- The user-scoped active item that will be superseded. -/
def oldC2 : Item :=
  { id := "old1", rowid := 1, type := MemoryType.fact, title := "Zebra",
    content := "zebra quilt", summary := "", source := "s",
    scope := MemoryScope.user, workspace := "w", tags := [], importance := 1,
    status := MemoryStatus.active, supersedesId := none, contentHash := "zh",
    createdAt := "2024-01-01", updatedAt := "2024-01-02" }

/-- Store holding the active `oldC2` (with its FTS row). -/
def dbC2 : Db :=
  { items := [oldC2], chunks := [], embeds := [], fts := [ftsRowOfItem oldC2],
    nextRowid := 2 }

/-- Engine state around `dbC2`. -/
def sC2 : EngineState := { db := dbC2, vectors := [] }

/-- The superseding save input. -/
def inputC2 : SaveInput :=
  { type := MemoryType.fact, title := "t", content := "h", summary := "",
    source := "s", scope := MemoryScope.workspace, tags := [], importance := 1,
    supersedesId := some "old1" }

/-- Oracle whose FTS engine matches exactly the new item's index row. -/
def oC2r : Oracles := { oracleEx with ftsMatch := fun _ r => decide (r.rowid = 2) }

/-- The lexical hit for the new item. -/
def hitAC2 : SearchHit :=
  { id := "mem-new", title := "t", snippet := "h", score := bm25Score 0,
    source := HitSource.lex, scope := MemoryScope.workspace,
    type := MemoryType.fact, status := MemoryStatus.active }

/-- The `QueryInput` recall builds for query `hello` with default filters. -/
def qinC2r : QueryInput :=
  { query := trimStr "hello", workspace := some "w",
    scopes := some (defaultRecallFilters.scopes.getD
      [MemoryScope.workspace, MemoryScope.global]),
    types := defaultRecallFilters.types,
    includeSuperseded := some defaultRecallFilters.includeSuperseded,
    topK := some defaultRecallFilters.topK,
    minScore := some defaultRecallFilters.minScore,
    mode := some defaultRecallFilters.mode }

/-- The hit recall returns for the new item. -/
def qhNewC2 : QueryHit :=
  { id := "mem-new", title := "t", score := 1, source := HitSource.lex,
    snippet := "h", scope := MemoryScope.workspace, type := MemoryType.fact }

/-- Recall filters that do recover the user-scoped superseded item:
`includeSuperseded` with the `user` scope requested and lexical mode. -/
def filtersC2E : RecallFilters :=
  { defaultRecallFilters with includeSuperseded := true, scopes := some [MemoryScope.user], mode := QueryMode.lexical }

/-- The archived hit recall returns for the superseded item. -/
def qhOldC2 : QueryHit :=
  { id := "old1", title := "Zebra", score := archivedScore,
    source := HitSource.lex, snippet := "zebra quilt",
    scope := MemoryScope.user, type := MemoryType.fact }

theorem c2_counterexample :
    (save oracleEx "w" sC2 inputC2).2 =
      Except.ok { id := "mem-new", isNew := true, supersededId := some "old1" } ∧
    getMemoryItemStatus (save oracleEx "w" sC2 inputC2).1.db "w" "old1" =
      some MemoryStatus.archived ∧
    likeContains "zebra" (lowerStr oldC2.content) = true ∧
    tokenizeForArchivedLookup "zebra" = ["zebra"] ∧
    recallMemories oracleEx (save oracleEx "w" sC2 inputC2).1.db "w" "zebra"
      { defaultRecallFilters with includeSuperseded := true } =
      Except.ok [] :=
  ⟨by rfl, by rfl, by rfl, by rfl, by rfl⟩

/-- The row transform a `sqlUpdateStatus` applies to each item. -/
def updStatusFn (uid ws : String) (st : MemoryStatus) (ts : String) :
    Item → Item :=
  fun it =>
    if it.id = uid && it.workspace = ws then
      applyUpd (fun it2 => { it2 with status := st, updatedAt := ts }) it
    else it

theorem items_sqlUpdateStatus (db : Db) (uid ws : String) (st : MemoryStatus)
    (ts : String) :
    (sqlUpdateStatus db uid ws st ts).items =
      db.items.map (updStatusFn uid ws st ts) := rfl

theorem updStatusFn_pred (uid ws : String) (st : MemoryStatus) (ts : String)
    (qid qws : String) (x : Item) :
    ((updStatusFn uid ws st ts x).id = qid &&
      (updStatusFn uid ws st ts x).workspace = qws) =
    (x.id = qid && x.workspace = qws) := by
  by_cases hx : (x.id = uid && x.workspace = ws) = true
  · simp only [updStatusFn, if_pos hx]
    rfl
  · simp only [updStatusFn, if_neg hx]

theorem updStatusFn_id (uid ws : String) (st : MemoryStatus) (ts : String)
    (x : Item) : (updStatusFn uid ws st ts x).id = x.id := by
  by_cases hx : (x.id = uid && x.workspace = ws) = true
  · simp only [updStatusFn, if_pos hx]
    rfl
  · simp only [updStatusFn, if_neg hx]

theorem find?_sqlUpdateStatus (db : Db) (uid ws : String) (st : MemoryStatus)
    (ts : String) (qid qws : String) :
    (sqlUpdateStatus db uid ws st ts).items.find?
      (fun m => m.id = qid && m.workspace = qws) =
    (db.items.find? (fun m => m.id = qid && m.workspace = qws)).map
      (updStatusFn uid ws st ts) := by
  rw [items_sqlUpdateStatus]
  exact find?_map_pred _ _ (fun x => updStatusFn_pred uid ws st ts qid qws x) _

theorem getStatus_sqlUpdateStatus (db : Db) (uid ws : String)
    (st : MemoryStatus) (ts : String) (ws2 qid : String) :
    getMemoryItemStatus (sqlUpdateStatus db uid ws st ts) ws2 qid =
      (db.items.find? (fun m => m.id = qid && m.workspace = ws2)).map
        (fun it => (updStatusFn uid ws st ts it).status) := by
  show ((sqlUpdateStatus db uid ws st ts).items.find? _).map _ = _
  rw [find?_sqlUpdateStatus]
  cases db.items.find? (fun m => m.id = qid && m.workspace = ws2) <;> rfl

/-- The metadata store after a fully successful supersede save. -/
def saveFinalDb (o : Oracles) (db : Db) (input : SaveInput)
    (id ws now : String) (sid : String) (prepared : List PChunk) : Db :=
  sqlUpdateStatus
    (sqlUpdateStatus (savePhase1Db o db input id ws now (some sid) prepared)
      id ws MemoryStatus.active o.now)
    sid ws MemoryStatus.archived o.now

/-- C2: supersede semantics, corrected.  With the supersede target `old` active
in the workspace and a clean run (embeddings prepared, no vector/finalise
failure, fresh id), `save(new, supersedesId = old)` succeeds; afterwards the
target's status is archived and the new item's status is active; recall with
default filters never returns the old id (its archived status is excluded),
and — demonstrated concretely — recall with default filters returns the new
item, while `NOT_FOUND`/`CONFLICT` surface exactly when the target is missing
or not active.  The claim's last part needs a scope proviso: a recall with
`includeSuperseded` whose query matches only the old item returns it only when
the old item's scope is among the requested scopes — with the default scopes
(`workspace`, `global`) a user-scoped superseded item is unrecoverable (see
`c2_counterexample`); requesting the `user` scope recovers it. -/
theorem c2_supersede_semantics (o : Oracles) (ws : String) (s : EngineState)
    (input : SaveInput) (sid : String) (old : Item) (prepared : List PChunk)
    (hsup : input.supersedesId = some sid)
    (hfind : s.db.items.find? (fun m => m.id = sid && m.workspace = ws) =
      some old)
    (hact : old.status = MemoryStatus.active)
    (hprep : prepareChunkEmbeddings o o.freshId input.content input.type
      input.scope ws = Except.ok prepared)
    (hnof : (insertVectorsLoop o prepared).2 = false)
    (hfin : o.finalizeFails = false)
    (hdelok : ∀ cid, o.vecDeleteFails cid = false)
    (hneq : sid ≠ o.freshId)
    (hfresh : ∀ it ∈ s.db.items, it.id ≠ o.freshId)
    (hnodup : (s.db.items.map (fun it => it.id)).Nodup) :
    (save o ws s input).2 =
      Except.ok { id := o.freshId, isNew := true, supersededId := some sid } ∧
    getMemoryItemStatus (save o ws s input).1.db ws sid =
      some MemoryStatus.archived ∧
    getMemoryItemStatus (save o ws s input).1.db ws o.freshId =
      some MemoryStatus.active ∧
    (∀ (o' : Oracles) (ws' q : String) (filters : RecallFilters)
        (out : List QueryHit),
      filters.includeSuperseded = false → ws' ≠ "" →
      recallMemories o' (save o ws s input).1.db ws' q filters =
        Except.ok out →
      ∀ h ∈ out, h.id ≠ sid) ∧
    (∀ (s2 : EngineState) (input2 : SaveInput) (sid2 : String),
      input2.supersedesId = some sid2 →
      getMemoryItemStatus s2.db ws sid2 = none →
      save o ws s2 input2 = (s2, Except.error ErrCode.notFound)) ∧
    (∀ (s2 : EngineState) (input2 : SaveInput) (sid2 : String)
        (st : MemoryStatus),
      input2.supersedesId = some sid2 →
      getMemoryItemStatus s2.db ws sid2 = some st →
      st ≠ MemoryStatus.active →
      save o ws s2 input2 = (s2, Except.error ErrCode.conflict)) ∧
    recallMemories oC2r (save oC2r "w" sC2 inputC2).1.db "w" "hello"
      defaultRecallFilters = Except.ok [qhNewC2] ∧
    recallMemories oracleEx (save oracleEx "w" sC2 inputC2).1.db "w" "zebra"
      filtersC2E = Except.ok [qhOldC2] := by
  have hgms : getMemoryItemStatus s.db ws sid = some MemoryStatus.active := by
    simp [getMemoryItemStatus, hfind, hact]
  have hsave1 : save o ws s input =
      saveAfterChecks o ws s input o.freshId o.now (some sid) := by
    simp [save, hsup, hgms]
  obtain ⟨ins, hins⟩ : ∃ i, insertVectorsLoop o prepared = (i, false) :=
    ⟨(insertVectorsLoop o prepared).1, by rw [← hnof]⟩
  have hvecs : deleteVectorsForMemory o
      (saveFinalDb o s.db input o.freshId ws o.now sid prepared)
      (s.vectors ++ ins) sid =
      ((deleteVectorsForMemory o
        (saveFinalDb o s.db input o.freshId ws o.now sid prepared)
        (s.vectors ++ ins) sid).1, false) := by
    rw [← deleteVectorsForMemory_nofail o
      (saveFinalDb o s.db input o.freshId ws o.now sid prepared) hdelok
      (s.vectors ++ ins) sid]
  have hred : save o ws s input =
      ({ db := saveFinalDb o s.db input o.freshId ws o.now sid prepared,
         vectors := (deleteVectorsForMemory o
           (saveFinalDb o s.db input o.freshId ws o.now sid prepared)
           (s.vectors ++ ins) sid).1 },
       Except.ok { id := o.freshId, isNew := true, supersededId := some sid }) := by
    rw [hsave1]
    simp only [saveAfterChecks, hprep, hins, hfin, Bool.false_eq_true, if_false]
    rw [show deleteVectorsForMemory o
        (sqlUpdateStatus (sqlUpdateStatus
          (savePhase1Db o s.db input o.freshId ws o.now (some sid) prepared)
          o.freshId ws MemoryStatus.active o.now) sid ws MemoryStatus.archived
          o.now) (s.vectors ++ ins) sid =
      ((deleteVectorsForMemory o
        (saveFinalDb o s.db input o.freshId ws o.now sid prepared)
        (s.vectors ++ ins) sid).1, false) from hvecs]
    rfl
  have hPold := List.find?_some hfind
  have hold_pair : old.id = sid ∧ old.workspace = ws := by simpa using hPold
  have hfind_db1 : (savePhase1Db o s.db input o.freshId ws o.now (some sid)
      prepared).items.find? (fun m => m.id = sid && m.workspace = ws) =
      some old :=
    find?_append_left _ _ _ hfind
  have h1old : updStatusFn o.freshId ws MemoryStatus.active o.now old = old := by
    simp only [updStatusFn]
    rw [if_neg]
    simp [hold_pair.1, hneq]
  have h2old : (updStatusFn sid ws MemoryStatus.archived o.now old).status =
      MemoryStatus.archived := by
    simp only [updStatusFn, if_pos hPold]
    rfl
  refine ⟨by rw [hred], ?_, ?_, ?_, ?_, ?_, ?_, ?_⟩
  · rw [hred]
    show getMemoryItemStatus (sqlUpdateStatus (sqlUpdateStatus
      (savePhase1Db o s.db input o.freshId ws o.now (some sid) prepared)
      o.freshId ws MemoryStatus.active o.now) sid ws MemoryStatus.archived
      o.now) ws sid = some MemoryStatus.archived
    rw [getStatus_sqlUpdateStatus, find?_sqlUpdateStatus, hfind_db1]
    simp only [Option.map_some']
    rw [h1old, h2old]
  · rw [hred]
    show getMemoryItemStatus (sqlUpdateStatus (sqlUpdateStatus
      (savePhase1Db o s.db input o.freshId ws o.now (some sid) prepared)
      o.freshId ws MemoryStatus.active o.now) sid ws MemoryStatus.archived
      o.now) ws o.freshId = some MemoryStatus.active
    have hfind_none : s.db.items.find?
        (fun m => m.id = o.freshId && m.workspace = ws) = none :=
      List.find?_eq_none.mpr (fun it hit => by simp [hfresh it hit])
    have hfind_db1' : (savePhase1Db o s.db input o.freshId ws o.now (some sid)
        prepared).items.find?
        (fun m => m.id = o.freshId && m.workspace = ws) =
        some (pendingRow o s.db input o.freshId ws o.now (some sid)) := by
      show (s.db.items ++
        [pendingRow o s.db input o.freshId ws o.now (some sid)]).find? _ = _
      rw [find?_append_none _ _ _ hfind_none]
      exact List.find?_cons_of_pos _ (by simp [pendingRow, pendingItem])
    rw [getStatus_sqlUpdateStatus, find?_sqlUpdateStatus, hfind_db1']
    simp only [Option.map_some']
    have hinner : updStatusFn o.freshId ws MemoryStatus.active o.now
        (pendingRow o s.db input o.freshId ws o.now (some sid)) =
        applyUpd (fun it2 => { it2 with status := MemoryStatus.active, updatedAt := o.now })
          (pendingRow o s.db input o.freshId ws o.now (some sid)) := by
      simp only [updStatusFn]
      rw [if_pos (by simp [pendingRow, pendingItem])]
    rw [hinner]
    have houter : updStatusFn sid ws MemoryStatus.archived o.now
        (applyUpd (fun it2 => { it2 with status := MemoryStatus.active, updatedAt := o.now })
          (pendingRow o s.db input o.freshId ws o.now (some sid))) =
        applyUpd (fun it2 => { it2 with status := MemoryStatus.active, updatedAt := o.now })
          (pendingRow o s.db input o.freshId ws o.now (some sid)) := by
      simp only [updStatusFn]
      rw [if_neg]
      simp [applyUpd, pendingRow, pendingItem, Ne.symm hneq]
    rw [houter]
    rfl
  · intro o' ws' q filters out hinc hws' hrec h hh heq
    rw [hred] at hrec
    obtain ⟨it, hit, hid2, -, hstm⟩ := recallMemories_sound hws' hrec h hh
    rw [hinc] at hstm
    have hact' : it.status = MemoryStatus.active := by
      simpa [queryStatuses] using hstm
    have hitems : (saveFinalDb o s.db input o.freshId ws o.now sid
        prepared).items =
        ((s.db.items ++
          [pendingRow o s.db input o.freshId ws o.now (some sid)]).map
          (updStatusFn o.freshId ws MemoryStatus.active o.now)).map
          (updStatusFn sid ws MemoryStatus.archived o.now) := rfl
    rw [hitems] at hit
    obtain ⟨y, hy, hit_eq⟩ := List.mem_map.mp hit
    obtain ⟨x, hx, hy_eq⟩ := List.mem_map.mp hy
    have hxid : x.id = sid := by
      have hchain : it.id = x.id := by
        rw [← hit_eq, ← hy_eq, updStatusFn_id, updStatusFn_id]
      rw [← hchain, hid2, heq]
    rcases List.mem_append.mp hx with hxs | hxp
    · have hxeq : x = old :=
        item_eq_of_id hnodup hxs (List.mem_of_find?_eq_some hfind)
          (by rw [hxid, hold_pair.1])
    -- wait direction: x.id = old.id needed
      have hstat : it.status = MemoryStatus.archived := by
        rw [← hit_eq, ← hy_eq, hxeq, h1old, h2old]
      exact absurd (hact'.symm.trans hstat) (by decide)
    · have hxeq : x = pendingRow o s.db input o.freshId ws o.now (some sid) :=
        List.mem_singleton.mp hxp
      have : o.freshId = sid := by
        rw [← hxid, hxeq]
        rfl
      exact hneq this.symm
  · intro s2 input2 sid2 hsup2 hnone2
    simp [save, hsup2, hnone2]
  · intro s2 input2 sid2 st hsup2 hst2 hne2
    simp [save, hsup2, hst2, hne2]
  · have hlex : searchLexical oC2r (save oC2r "w" sC2 inputC2).1.db
        (queryOpts qinC2r) = [hitAC2] := by rfl
    have hvec : searchVector oC2r (save oC2r "w" sC2 inputC2).1.db
        (queryOpts qinC2r) = [] := by rfl
    have hmode : queryModeResults oC2r (save oC2r "w" sC2 inputC2).1.db
        qinC2r = rrfFusion [hitAC2] []
        { defaultFusionOptions with candidateLimit := 30, minScore := (1:ℚ)/4 } := by
      rw [← hlex, ← hvec]
      rfl
    have hfuse := rrfFusion_single hitAC2 ((1:ℚ)/4) (by norm_num)
    have hrec0 : recallMemories oC2r (save oC2r "w" sC2 inputC2).1.db "w"
        "hello" defaultRecallFilters =
        Except.ok (((mergeArchived (queryModeResults oC2r
          (save oC2r "w" sC2 inputC2).1.db qinC2r) []).take 30).map
          toQueryHit) := rfl
    rw [hrec0, hmode, hfuse]
    rfl
  · rfl

theorem c2_supersede_semantics_witness :
    (inputC2.supersedesId = some "old1" ∧
      sC2.db.items.find? (fun m => m.id = "old1" && m.workspace = "w") =
        some oldC2 ∧
      oldC2.status = MemoryStatus.active) ∧
    (save oracleEx "w" sC2 inputC2).2 =
      Except.ok { id := "mem-new", isNew := true, supersededId := some "old1" } ∧
    getMemoryItemStatus (save oracleEx "w" sC2 inputC2).1.db "w" "old1" =
      some MemoryStatus.archived ∧
    getMemoryItemStatus (save oracleEx "w" sC2 inputC2).1.db "w" "mem-new" =
      some MemoryStatus.active ∧
    recallMemories oC2r (save oC2r "w" sC2 inputC2).1.db "w" "hello"
      defaultRecallFilters = Except.ok [qhNewC2] ∧
    recallMemories oracleEx (save oracleEx "w" sC2 inputC2).1.db "w" "zebra"
      filtersC2E = Except.ok [qhOldC2] := by
  have h := c2_supersede_semantics oracleEx "w" sC2 inputC2 "old1" oldC2
    preparedC1 rfl (by rfl) rfl (by rfl) (by rfl) rfl (fun _ => rfl)
    (by decide) (by decide) (by decide)
  exact ⟨⟨rfl, by rfl, rfl⟩, h.1, h.2.1, h.2.2.1, h.2.2.2.2.2.2.1,
    h.2.2.2.2.2.2.2⟩
